import Mathlib

/-!
# Accordion / AccordionItem: a shallow embedding

Verification development for `src/Accordion/Accordion.js` and
`src/Accordion/AccordionItem.js`.

Modelling conventions.

* A DOM element is a tag name with an ordered attribute list.  The ARIA IDL
  attributes `ariaExpanded`, `ariaHidden`, `ariaDisabled` reflect the content
  attributes `aria-expanded`, `aria-hidden`, `aria-disabled`: assigning a value
  stores its string conversion, reading yields the stored string or `null`.
* An item of a container is referred to by its position among the children,
  which stands for object identity.  A position beyond the children stands
  for an item that is not a child of the container and was never attached.
* `$accordion`, `$button`, `$section` of an item exist once `_cacheDOM` has
  run (`AccordionItem.dom`); before that they are `undefined` and any
  property access through them raises a `TypeError`.
* An operation that can raise half-way returns the state it reached together
  with the exception, since the DOM keeps the mutations made before the throw.
* `Accordion` is the state of a container with its children; the live child
  collection `this.children` is what `$accordionItems` holds once the
  constructor has run `_cacheDOM`.  Before that, inside the
  `customElements.define` call of the constructor, the children are upgraded
  and attached while `$accordionItems` is undefined: the operations that read
  `activeItems` then carry a flag `cached` (`activeItemsIn`, `setExpandedIn`,
  `connectedCallbackIn`), and `Accordion.constructor` runs that phase before
  the checks.
-/

namespace CustomElements

/-! ## JavaScript values and exceptions -/

/-- The `throw new Error(...)` statements of the two classes. -/
inductive ConfigError where
  /-- Message "Please specify a label for the accordion item." -/
  | missingLabel
  /-- Message "Please specify an ID for the accordion item." -/
  | missingId
  /-- Message "The ID ... is not a correct ID. Please slugify it." -/
  | incorrectId (id : String)
  /-- Message "The ID ... already exists in the DOM. Please rename it." -/
  | duplicateId (id : String)
  /-- Message "Accordion should have AccordionItem as children. ..." -/
  | childNotItem
  /-- Message "Accordion item should have an Accordion as parent. ..." -/
  | parentNotAccordion
  /-- Message "You cannot define more than one expanded accordion if your accordion does
  not have the "allow-multiple" attribute." -/
  | moreThanOneExpanded
  deriving DecidableEq, Repr

/-- Exceptions: a configuration error thrown by the code, a `TypeError` of the
language (property access on `undefined`), or a `DOMException` of the host
(by name). -/
inductive JsError where
  | error (e : ConfigError)
  | typeError
  | domException (name : String)
  deriving DecidableEq, Repr

deriving instance DecidableEq for Except

/-- The values that reach the `expanded` setter. -/
inductive JsValue where
  | null
  | bool (b : Bool)
  | str (s : String)
  deriving DecidableEq, Repr

/-- JavaScript truthiness, `if (v)`. -/
def JsValue.truthy : JsValue → Bool
  | .null => false
  | .bool b => b
  | .str s => s != ""

/-- The value of `getAttribute(...)` or of a reflected ARIA attribute: the
string, or `null` when the attribute is absent. -/
def JsValue.ofAttr : Option String → JsValue
  | none => .null
  | some s => .str s

/-- String conversion of a boolean. -/
def boolString (b : Bool) : String := if b then "true" else "false"

/-! ## Regular expressions (for `_checkIdIsCorrect`) -/

/-- Regular expressions over characters, with character classes given by
inclusive ranges as in `[A-Za-z0-9]`. -/
inductive Regex where
  | empty
  | eps
  | cls (ranges : List (Char × Char))
  | seq (r s : Regex)
  | alt (r s : Regex)
  | star (r : Regex)
  deriving Repr

namespace Regex

/-- Membership of a character in a class of ranges. -/
def inClass (ranges : List (Char × Char)) (c : Char) : Bool :=
  ranges.any (fun p => p.1.toNat ≤ c.toNat && c.toNat ≤ p.2.toNat)

/-- The quantifier `+`. -/
def plus (r : Regex) : Regex := seq r (star r)

/-- Does the expression match the empty string? -/
def nullable : Regex → Bool
  | empty => false
  | eps => true
  | cls _ => false
  | seq r s => nullable r && nullable s
  | alt r s => nullable r || nullable s
  | star _ => true

/-- Brzozowski derivative: what is left to match after reading `c`. -/
def deriv : Regex → Char → Regex
  | empty, _ => empty
  | eps, _ => empty
  | cls rs, c => if inClass rs c then eps else empty
  | seq r s, c => if nullable r then alt (seq (deriv r c) s) (deriv s c) else seq (deriv r c) s
  | alt r s, c => alt (deriv r c) (deriv s c)
  | star r, c => seq (deriv r c) (star r)

/-- Anchored match of the whole input, `^...$` without the `m` flag. -/
def fullMatch : Regex → List Char → Bool
  | r, [] => nullable r
  | r, c :: cs => fullMatch (deriv r c) cs

/-- The language of an expression. -/
def lang : Regex → Language Char
  | empty => 0
  | eps => 1
  | cls rs => {w | ∃ c, inClass rs c = true ∧ w = [c]}
  | seq r s => lang r * lang s
  | alt r s => lang r + lang s
  | star r => KStar.kstar (lang r)

end Regex

/-! ## Elements and selectors -/

/-- A DOM element: local name and attributes. -/
structure Element where
  tag : String
  attrs : List (String × String)
  deriving DecidableEq, Repr

/-- Attribute list after `setAttribute(name, value)`. -/
def setAttr : List (String × String) → String → String → List (String × String)
  | [], name, value => [(name, value)]
  | (k, x) :: rest, name, value =>
    if k = name then (k, value) :: rest else (k, x) :: setAttr rest name value

/-- Attribute list after `removeAttribute(name)`. -/
def removeAttr (attrs : List (String × String)) (name : String) : List (String × String) :=
  attrs.filter (fun p => p.1 != name)

namespace Element

/-- Method `getAttribute(name)`. -/
def getAttribute (e : Element) (name : String) : Option String := e.attrs.lookup name

/-- Method `hasAttribute(name)`. -/
def hasAttribute (e : Element) (name : String) : Bool := (e.attrs.lookup name).isSome

/-- Method `setAttribute(name, value)`. -/
def setAttribute (e : Element) (name value : String) : Element :=
  { e with attrs := setAttr e.attrs name value }

/-- Method `removeAttribute(name)`. -/
def removeAttribute (e : Element) (name : String) : Element :=
  { e with attrs := removeAttr e.attrs name }

end Element

/-- The attribute tests that occur in the focusable-element selectors. -/
inductive AttrTest where
  /-- Test `[name]` -/
  | has (name : String)
  /-- Test `[name="value"]` -/
  | eq (name value : String)
  /-- Test `:not([name])` -/
  | notHas (name : String)
  /-- Test `:not([name="value"])` -/
  | notEq (name value : String)
  deriving DecidableEq, Repr

/-- A compound selector: an optional type selector and attribute tests. -/
structure Selector where
  tag : Option String
  tests : List AttrTest
  deriving DecidableEq, Repr

/-- Does the element pass the attribute test? -/
def AttrTest.holds (e : Element) : AttrTest → Bool
  | .has name => e.hasAttribute name
  | .eq name value => e.getAttribute name == some value
  | .notHas name => !e.hasAttribute name
  | .notEq name value => !(e.getAttribute name == some value)

/-- Does the compound selector select the element? -/
def Selector.selects (s : Selector) (e : Element) : Bool :=
  (match s.tag with
    | none => true
    | some t => e.tag == t) && s.tests.all (AttrTest.holds e)

/-- The loop `querySelectorAll(list).forEach(el => el.setAttribute(name, value))` over
the descendants of a node, which are kept in tree order: every descendant
selected by one of the selectors of the list gets the attribute. -/
def setAttributeOnSelected (list : List Selector) (name value : String)
    (descendants : List Element) : List Element :=
  descendants.map (fun e => if list.any (fun s => s.selects e) then e.setAttribute name value else e)

/-! ## State of an item and of a container -/

/-- What `connectedCallback` creates and caches for an item: the trigger
`$button`, the content region `$section` with its element descendants in tree
order, and which listeners `_eventListeners` has put on the trigger. -/
structure ItemDom where
  button : Element
  sectionEl : Element
  descendants : List Element
  toggleOnClick : Bool
  keydownListener : Bool
  deriving DecidableEq, Repr

/-- An `AccordionItem` element: its own attributes (`id`, `label`,
`expanded`), the element descendants it was declared with as long as they
have not been moved into the content region, and the cached nodes. -/
structure AccordionItem where
  attrs : List (String × String)
  content : List Element
  dom : Option ItemDom
  deriving DecidableEq, Repr

/-- An `Accordion` element: its attributes, the value read for the property
`allowUserEvents` (coerced to a boolean; the class declares no member of this
name, so the read yields `undefined` unless the page has assigned one), the
children `$accordionItems`, and the child whose trigger holds the focus. -/
structure Accordion where
  attrs : List (String × String)
  allowUserEvents : Bool
  accordionItems : List AccordionItem
  focused : Option Nat
  deriving DecidableEq, Repr

/-! ## Getters of the two classes -/

namespace AccordionItem

/-- Method `getAttribute(name)` on the item element. -/
def getAttribute (it : AccordionItem) (name : String) : Option String := it.attrs.lookup name

/-- Method `setAttribute(name, value)` on the item element. -/
def setAttribute (it : AccordionItem) (name value : String) : AccordionItem :=
  { it with attrs := setAttr it.attrs name value }

/-- The reflected `id` of the element: the attribute, or the empty string. -/
def id (it : AccordionItem) : String := (it.getAttribute "id").getD ""

/-- Getter `label`. -/
def label (it : AccordionItem) : Option String := it.getAttribute "label"

/-- Getter `expanded`: `this.getAttribute('expanded') === 'true'`. -/
def expanded (it : AccordionItem) : Bool := it.getAttribute "expanded" == some "true"

/-- Apply a change to the cached trigger `$button`. -/
def onButton (f : Element → Element) (it : AccordionItem) : AccordionItem :=
  { it with dom := it.dom.map (fun d => { d with button := f d.button }) }

/-- Apply a change to the cached content region `$section`. -/
def onSection (f : Element → Element) (it : AccordionItem) : AccordionItem :=
  { it with dom := it.dom.map (fun d => { d with sectionEl := f d.sectionEl }) }

/-- Apply a change to the descendants of the content region. -/
def onDescendants (f : List Element → List Element) (it : AccordionItem) : AccordionItem :=
  { it with dom := it.dom.map (fun d => { d with descendants := f d.descendants }) }

/-- Method `_getFocusableElements()`: the selector list, which
`querySelectorAll` receives joined by commas. -/
def _getFocusableElements : List Selector :=
  [ ⟨some "a", []⟩,
    ⟨none, [.eq "role" "checkbox"]⟩,
    ⟨none, [.has "href"]⟩,
    ⟨some "button", [.notHas "disabled"]⟩,
    ⟨some "input", [.notHas "disabled"]⟩,
    ⟨some "select", [.notHas "disabled"]⟩,
    ⟨some "textarea", [.notHas "disabled"]⟩,
    ⟨none, [.has "tabindex", .notEq "tabindex" "-1"]⟩ ]

end AccordionItem

namespace Accordion

/-- Method `hasAttribute(name)` on the container element. -/
def hasAttribute (c : Accordion) (name : String) : Bool := (c.attrs.lookup name).isSome

/-- Getter `allowMultiple`. -/
def allowMultiple (c : Accordion) : Bool := c.hasAttribute "allow-multiple"

/-- Getter `allowToggle`. -/
def allowToggle (c : Accordion) : Bool :=
  if c.allowMultiple then true else c.hasAttribute "allow-toggle"

/-- The child at a position, `undefined` outside the collection. -/
def item? (c : Accordion) (i : Nat) : Option AccordionItem := c.accordionItems[i]?

/-- Is the child at position `i` expanded (`$accordionItem.expanded === true`)? -/
def isExpanded (c : Accordion) (i : Nat) : Bool := (c.item? i).map AccordionItem.expanded == some true

/-- Has the child at position `i` run `_cacheDOM`? -/
def isAttached (c : Accordion) (i : Nat) : Bool := ((c.item? i).bind AccordionItem.dom).isSome

/-- Getter `activeItems` of a container whose `$accordionItems` is defined: the
expanded children, in order, as positions.  The guard for an undefined
`$accordionItems` is in `activeItemsIn`. -/
def activeItems (c : Accordion) : List Nat :=
  (List.range c.accordionItems.length).filter (fun i => c.isExpanded i)

/-- Getter `activeItems` with its guard (line 45) explicit: `cached` tells
whether `$accordionItems` is defined, which it is once the constructor has run
`_cacheDOM`; while it is undefined the getter returns `[]`. -/
def activeItemsIn (cached : Bool) (c : Accordion) : List Nat :=
  if cached then c.activeItems else []

/-- Replace the child at position `i` by its image under `f`. -/
def modifyItem (c : Accordion) (i : Nat) (f : AccordionItem → AccordionItem) : Accordion :=
  { c with accordionItems := c.accordionItems.modify f i }

end Accordion

/-! ## AccordionItem.js: the `expanded` setter -/

namespace AccordionItem

/-- The statements of the setter's first branch that follow the two policy
tests: store the attribute, mark the trigger and the region, make the
focusable descendants of the region reachable. -/
def reflectExpanded (it : AccordionItem) : AccordionItem :=
  onDescendants (setAttributeOnSelected _getFocusableElements "tabindex" "0")
    (onSection (fun s => s.setAttribute "aria-hidden" "false")
      (onButton (fun b => b.setAttribute "aria-expanded" "true")
        (it.setAttribute "expanded" "true")))

/-- The setter's second branch on an attached item. -/
def reflectCollapsed (allowToggle : Bool) (it : AccordionItem) : AccordionItem :=
  onDescendants (setAttributeOnSelected _getFocusableElements "tabindex" "-1")
    (onSection (fun s => s.setAttribute "aria-hidden" "true")
      (onButton (fun b => b.setAttribute "aria-expanded" "false")
        ((onButton (fun b => if !allowToggle then b.removeAttribute "aria-disabled" else b) it).setAttribute
          "expanded" "false")))

/-- The assignment `expanded = false` on child `i`: on an item without cached
nodes the first statement, `this.$accordion.allowToggle`, raises. -/
def setExpandedFalse (c : Accordion) (i : Nat) : Accordion × Option JsError :=
  if c.isAttached i then (c.modifyItem i (reflectCollapsed c.allowToggle), none)
  else (c, some .typeError)

/-- The loop `activeItems.forEach($activeItem => $activeItem.expanded = false)`
over the array the getter returned; an exception ends it. -/
def collapseEach (c : Accordion) : List Nat → Accordion × Option JsError
  | [] => (c, none)
  | j :: js =>
    match setExpandedFalse c j with
    | (c1, none) => collapseEach c1 js
    | (c1, some e) => (c1, some e)

/-- The setter `set expanded(expanded)` on child `i` of the container. -/
def setExpanded (c : Accordion) (i : Nat) (v : JsValue) : Accordion × Option JsError :=
  if v.truthy then
    if c.isAttached i then
      let c1 := if !c.allowToggle then
          c.modifyItem i (onButton (fun b => b.setAttribute "aria-disabled" "true"))
        else c
      match (if !c1.allowMultiple then collapseEach c1 c1.activeItems else (c1, none)) with
      | (c2, none) => (c2.modifyItem i reflectExpanded, none)
      | (c2, some e) => (c2, some e)
    else (c, some .typeError)
  else setExpandedFalse c i

/-- Method `focus()` of child `i`: `this.$button.focus()`. -/
def focus (c : Accordion) (i : Nat) : Accordion × Option JsError :=
  if c.isAttached i then ({ c with focused := some i }, none) else (c, some .typeError)

end AccordionItem

/-! ## Accordion.js: navigation -/

namespace Accordion

/-- The expression `[...this.$accordionItems].findIndex(x => x === item)`. -/
def findIndex (c : Accordion) (item : Nat) : Int :=
  if item < c.accordionItems.length then (item : Int) else -1

/-- The call `this.$accordionItems[index].focus()`; indexing outside the
collection yields `undefined`, on which the call raises. -/
def focusAt (c : Accordion) (index : Int) : Accordion × Option JsError :=
  if 0 ≤ index ∧ index.toNat < c.accordionItems.length then AccordionItem.focus c index.toNat
  else (c, some .typeError)

/-- Method `goToFirstItem()`. -/
def goToFirstItem (c : Accordion) : Accordion × Option JsError := c.focusAt 0

/-- Method `goToLastItem()`. -/
def goToLastItem (c : Accordion) : Accordion × Option JsError :=
  c.focusAt ((c.accordionItems.length : Int) - 1)

/-- Method `goToPreviousItem(item)`. -/
def goToPreviousItem (c : Accordion) (item : Nat) : Accordion × Option JsError :=
  let itemIndex := c.findIndex item
  let goToIndex := if itemIndex = 0 then (c.accordionItems.length : Int) - 1 else itemIndex - 1
  c.focusAt goToIndex

/-- Method `goToNextItem(item)`. -/
def goToNextItem (c : Accordion) (item : Nat) : Accordion × Option JsError :=
  let itemIndex := c.findIndex item
  let goToIndex := if itemIndex = (c.accordionItems.length : Int) - 1 then 0 else itemIndex + 1
  c.focusAt goToIndex

end Accordion

/-! ## Accordion.js: the children and the checks of the constructor -/

/-- A child element as the container's constructor finds it: an instance of
`AccordionItem`, or any other element. -/
inductive Node where
  | item (it : AccordionItem)
  | other (e : Element)
  deriving DecidableEq, Repr

/-- The test `$accordionItem instanceof AccordionItem`. -/
def Node.isItem : Node → Bool
  | .item _ => true
  | .other _ => false

/-- The children that are items. -/
def Node.items : List Node → List AccordionItem
  | [] => []
  | .item it :: rest => it :: Node.items rest
  | .other _ :: rest => Node.items rest

namespace Accordion

/-- Method `_checkDOMIsCorrect()` of the container. -/
def _checkDOMIsCorrect (children : List Node) : Except JsError Unit :=
  if children.all Node.isItem then .ok () else .error (.error .childNotItem)

/-- The statements of the constructor that follow `customElements.define`
(lines 10 to 14): `_cacheDOM`, `_checkDOMIsCorrect` and the test on
`activeItems`, run on the children in the state in which `define` has left
them.  The container has no `allowUserEvents`: no statement of the class
assigns one. -/
def afterDefine (attrs : List (String × String)) (children : List Node) :
    Except JsError Accordion :=
  let c : Accordion :=
    { attrs := attrs, allowUserEvents := false, accordionItems := Node.items children,
      focused := none }
  match _checkDOMIsCorrect children with
  | .error e => .error e
  | .ok () =>
    if !c.allowMultiple && decide (c.activeItems.length > 1) then
      .error (.error .moreThanOneExpanded)
    else .ok c

end Accordion

/-! ## AccordionItem.js: construction, attachment, events -/

namespace AccordionItem

/-- The constructor of `AccordionItem`: `!this.label`, then `!this.id`. -/
def constructor (it : AccordionItem) : Except JsError Unit :=
  if !(JsValue.ofAttr it.label).truthy then .error (.error .missingLabel)
  else if it.id = "" then .error (.error .missingId)
  else .ok ()

/-- The class `[A-Za-z0-9]`. -/
def alnumClass : Regex := .cls [('A', 'Z'), ('a', 'z'), ('0', '9')]

/-- The class of the single character `-`. -/
def hyphen : Regex := .cls [('-', '-')]

/-- The regular expression of `_checkIdIsCorrect`,
`/^[A-Za-z0-9]+(?:-[A-Za-z0-9]+)*$/`. -/
def idRegex : Regex :=
  .seq (Regex.plus alnumClass) (.star (.seq hyphen (Regex.plus alnumClass)))

/-- Method `_checkIdIsCorrect()`: raise when `regex.exec(this.id)` is `null`. -/
def _checkIdIsCorrect (id : String) : Except JsError Unit :=
  if Regex.fullMatch idRegex id.toList then .ok () else .error (.error (.incorrectId id))

/-- The spec's wording of a slug: cut at the hyphens, the identifier is one or
more runs, each of them non-empty and made of ASCII letters and digits only. -/
def isSlug (id : String) : Bool :=
  (id.toList.splitOn '-').all (fun run => !run.isEmpty && run.all Char.isAlphanum)

/-- The element descendants of an item in tree order (`innerHTML`): what it
was declared with, or the trigger, the region and the region's descendants. -/
def innerHTML (it : AccordionItem) : List Element :=
  match it.dom with
  | none => it.content
  | some d => d.button :: d.sectionEl :: d.descendants

/-- The `id` attributes carried by the item element and by its descendants. -/
def idsWithSelf (it : AccordionItem) : List String :=
  (it.getAttribute "id").toList ++ it.innerHTML.filterMap (fun e => e.getAttribute "id")

/-- The `id` attributes of the elements of the document other than child `i`:
those outside the container (`document`), the container, the other children
with their descendants, and the descendants of child `i`. -/
def otherIds (document : List Element) (c : Accordion) (i : Nat) : List String :=
  document.filterMap (fun e => e.getAttribute "id") ++ (c.attrs.lookup "id").toList ++
    ((c.accordionItems.eraseIdx i).map idsWithSelf).flatten ++
    (match c.item? i with
      | none => []
      | some it => it.innerHTML.filterMap (fun e => e.getAttribute "id"))

/-- Method `_checkIdDoesnotExist()` for child `i`.  It runs after
`_checkIdIsCorrect`, so the identifier is a slug, and the selector `#` followed
by a slug is valid unless the slug starts with a digit: `querySelectorAll`
raises `SyntaxError` on an invalid selector. -/
def _checkIdDoesnotExist (document : List Element) (c : Accordion) (i : Nat) (id : String) :
    Except JsError Unit :=
  if (id.toList.head?.map Char.isDigit).getD true then .error (.domException "SyntaxError")
  else if id ∈ otherIds document c i then .error (.error (.duplicateId id))
  else .ok ()

/-- The item after `this.content = this.innerHTML`, `this.innerHTML = null`,
`_addSection()`, `_addButton()` and `_cacheDOM()`: the declared descendants
are now those of the new region, and the new trigger and region are cached.
The label is taken to be plain text. -/
def _cacheDOM (it : AccordionItem) : AccordionItem :=
  { it with
    content := []
    dom := some
      { button := ⟨"button", [("data-accordion-item-button", "")]⟩
        sectionEl := ⟨"div", [("data-accordion-item-section", "")]⟩
        descendants := it.innerHTML
        toggleOnClick := false
        keydownListener := false } }

/-- Method `_accessibleTrigger()` of child `i`; `labelId` is `label-` followed
by the identifier. -/
def _accessibleTrigger (c : Accordion) (i : Nat) : Accordion × Option JsError :=
  match c.item? i with
  | none => (c, some .typeError)
  | some it =>
    let c1 := c.modifyItem i
      (onButton (fun b => (b.setAttribute "tabindex" "0").setAttribute "id" ("label-" ++ it.id)))
    match setExpanded c1 i (JsValue.ofAttr (it.getAttribute "expanded")) with
    | (c2, some e) => (c2, some e)
    | (c2, none) =>
      (c2.modifyItem i (onButton (fun b => b.setAttribute "aria-controls" it.id)), none)

/-- Method `_accessibleSection()`. -/
def _accessibleSection (it : AccordionItem) : AccordionItem :=
  onSection (fun s =>
    (((s.setAttribute "id" it.id).setAttribute "role" "region").setAttribute
      "aria-labelledby" ("label-" ++ it.id)).setAttribute "aria-hidden"
        (boolString (!it.expanded))) it

/-- Method `_eventListeners()`: the listeners on the trigger; the second click
listener is added when the container's `allowUserEvents` is truthy. -/
def _eventListeners (allowUserEvents : Bool) (it : AccordionItem) : AccordionItem :=
  { it with dom := it.dom.map (fun d =>
      { d with toggleOnClick := allowUserEvents, keydownListener := true }) }

/-- Method `connectedCallback()` of child `i`, in a document whose elements
outside the container are `document`.  The parent is the container, so
`_checkDOMIsCorrect()` of the item passes. -/
def connectedCallback (document : List Element) (c : Accordion) (i : Nat) :
    Accordion × Option JsError :=
  match c.item? i with
  | none => (c, none)
  | some it =>
    match _checkIdIsCorrect it.id with
    | .error e => (c, some e)
    | .ok () =>
      match _checkIdDoesnotExist document c i it.id with
      | .error e => (c, some e)
      | .ok () =>
        match _accessibleTrigger (c.modifyItem i _cacheDOM) i with
        | (c2, some e) => (c2, some e)
        | (c2, none) =>
          let c4 := (c2.modifyItem i _accessibleSection).modifyItem i
            (_eventListeners c.allowUserEvents)
          (if !c.allowUserEvents then
              c4.modifyItem i (onButton (fun b => b.setAttribute "aria-disabled" "true"))
            else c4, none)

/-- The statement shared by the click and keydown listeners: force open when
toggling is disallowed, toggle otherwise. -/
def toggle (c : Accordion) (i : Nat) : Accordion × Option JsError :=
  if !c.allowToggle then setExpanded c i (.bool true)
  else setExpanded c i (.bool (!c.isExpanded i))

/-- A click on the trigger of child `i`.  The first listener only suppresses
the default action; the second one exists when `allowUserEvents` was truthy
as `_eventListeners` ran.  An exception in a listener is reported by the
host and the state reached stays. -/
def click (c : Accordion) (i : Nat) : Accordion × Option JsError :=
  match (c.item? i).bind AccordionItem.dom with
  | none => (c, none)
  | some d =>
    if d.toggleOnClick then
      if !(JsValue.ofAttr (d.button.getAttribute "aria-disabled")).truthy then toggle c i
      else (c, none)
    else (c, none)

/-- A keydown event with the given `code` on the trigger of child `i`. -/
def keydown (c : Accordion) (i : Nat) (code : String) : Accordion × Option JsError :=
  match (c.item? i).bind AccordionItem.dom with
  | none => (c, none)
  | some d =>
    if !d.keydownListener then (c, none)
    else if c.allowUserEvents && (code == "Space" || code == "Enter") then toggle c i
    else if code == "ArrowUp" then c.goToPreviousItem i
    else if code == "ArrowDown" then c.goToNextItem i
    else if code == "Home" then c.goToFirstItem
    else if code == "End" then c.goToLastItem
    else (c, none)

/-- The setter on child `i` of a container whose `$accordionItems` may still be
undefined, as it is inside `customElements.define`, before `_cacheDOM` of the
container: the loop then runs over the `[]` that `activeItems` returns.  With
`cached` true this is `setExpanded`. -/
def setExpandedIn (cached : Bool) (c : Accordion) (i : Nat) (v : JsValue) :
    Accordion × Option JsError :=
  if v.truthy then
    if c.isAttached i then
      let c1 := if !c.allowToggle then
          c.modifyItem i (onButton (fun b => b.setAttribute "aria-disabled" "true"))
        else c
      match (if !c1.allowMultiple then collapseEach c1 (c1.activeItemsIn cached)
        else (c1, none)) with
      | (c2, none) => (c2.modifyItem i reflectExpanded, none)
      | (c2, some e) => (c2, some e)
    else (c, some .typeError)
  else setExpandedFalse c i

/-- Method `_accessibleTrigger()` of child `i`, with the guard of `activeItems`
explicit as in `setExpandedIn`. -/
def _accessibleTriggerIn (cached : Bool) (c : Accordion) (i : Nat) :
    Accordion × Option JsError :=
  match c.item? i with
  | none => (c, some .typeError)
  | some it =>
    let c1 := c.modifyItem i
      (onButton (fun b => (b.setAttribute "tabindex" "0").setAttribute "id" ("label-" ++ it.id)))
    match setExpandedIn cached c1 i (JsValue.ofAttr (it.getAttribute "expanded")) with
    | (c2, some e) => (c2, some e)
    | (c2, none) =>
      (c2.modifyItem i (onButton (fun b => b.setAttribute "aria-controls" it.id)), none)

/-- Method `connectedCallback()` of child `i`, with the guard of `activeItems`
explicit as in `setExpandedIn`.  With `cached` true this is `connectedCallback`. -/
def connectedCallbackIn (cached : Bool) (document : List Element) (c : Accordion) (i : Nat) :
    Accordion × Option JsError :=
  match c.item? i with
  | none => (c, none)
  | some it =>
    match _checkIdIsCorrect it.id with
    | .error e => (c, some e)
    | .ok () =>
      match _checkIdDoesnotExist document c i it.id with
      | .error e => (c, some e)
      | .ok () =>
        match _accessibleTriggerIn cached (c.modifyItem i _cacheDOM) i with
        | (c2, some e) => (c2, some e)
        | (c2, none) =>
          let c4 := (c2.modifyItem i _accessibleSection).modifyItem i
            (_eventListeners c.allowUserEvents)
          (if !c.allowUserEvents then
              c4.modifyItem i (onButton (fun b => b.setAttribute "aria-disabled" "true"))
            else c4, none)

end AccordionItem

/-! ## Accordion.js: the constructor -/

/-- The children that are not items. -/
def Node.others : List Node → List Element
  | [] => []
  | .item _ :: rest => Node.others rest
  | .other e :: rest => e :: Node.others rest

/-- The children with the items replaced, in order, by the given ones. -/
def Node.withItems : List Node → List AccordionItem → List Node
  | [], _ => []
  | .other e :: rest, items => .other e :: Node.withItems rest items
  | .item it :: rest, [] => .item it :: Node.withItems rest []
  | .item _ :: rest, it :: items => .item it :: Node.withItems rest items

namespace Accordion

/-- The upgrade of child `i` inside `customElements.define`: the constructor
of `AccordionItem` runs, and when it has not raised, `connectedCallback`
follows, at a time when the container's `$accordionItems` is still undefined.
Exceptions are reported by the host and do not reach the caller; an element
whose constructor raised keeps the prototype `super()` gave it and is never
attached. -/
def upgrade (document : List Element) (c : Accordion) (i : Nat) : Accordion :=
  match c.item? i with
  | none => c
  | some it =>
    match AccordionItem.constructor it with
    | .error _ => c
    | .ok () => (AccordionItem.connectedCallbackIn false document c i).1

/-- The call `customElements.define('nav-accordion-item', AccordionItem)` of the
constructor: `NotSupportedError` when the name is already defined (as it is
once a container has been constructed); otherwise every `nav-accordion-item`
child is upgraded and attached, in tree order, before `define` returns. -/
def define (itemNameDefined : Bool) (document : List Element) (c : Accordion) :
    Except JsError Accordion :=
  if itemNameDefined then .error (.domException "NotSupportedError")
  else .ok ((List.range c.accordionItems.length).foldl (upgrade document) c)

/-- The constructor of `Accordion`, for a container that stands in a document
with the given children: `.item` for a `nav-accordion-item` element as the
markup declares it, `.other` for any other element; `document` holds the
elements outside the container.  `customElements.define` first upgrades and
attaches the items, then `_cacheDOM` and the checks follow. -/
def constructor (itemNameDefined : Bool) (document : List Element)
    (attrs : List (String × String)) (children : List Node) : Except JsError Accordion :=
  match define itemNameDefined (document ++ Node.others children)
      { attrs := attrs, allowUserEvents := false, accordionItems := Node.items children,
        focused := none } with
  | .error e => .error e
  | .ok c => afterDefine attrs (Node.withItems children c.accordionItems)

end Accordion

/-! ## Auxiliary notions used by the statements and proofs -/

namespace AccordionItem

open Accordion

/-- The trigger's `aria-expanded` is the item's expanded state and the
region's `aria-hidden` its negation (for an item that has cached nodes). -/
def synced (it : AccordionItem) : Bool :=
  match it.dom with
  | none => true
  | some d =>
    d.button.getAttribute "aria-expanded" == some (boolString it.expanded) &&
      d.sectionEl.getAttribute "aria-hidden" == some (boolString (!it.expanded))

end AccordionItem

namespace Accordion

/-- At most one child is expanded. -/
def AtMostOne (c : Accordion) : Prop :=
  ∀ j k, c.isExpanded j = true → c.isExpanded k = true → j = k

/-- An attribute of the trigger of child `i`. -/
def buttonAttr (c : Accordion) (i : Nat) (name : String) : Option String :=
  ((c.item? i).bind AccordionItem.dom).bind (fun d => d.button.getAttribute name)

/-- An attribute of the content region of child `i`. -/
def sectionAttr (c : Accordion) (i : Nat) (name : String) : Option String :=
  ((c.item? i).bind AccordionItem.dom).bind (fun d => d.sectionEl.getAttribute name)

/-- The descendants of the content region of child `i`. -/
def descendants (c : Accordion) (i : Nat) : List Element :=
  (((c.item? i).bind AccordionItem.dom).map ItemDom.descendants).getD []

/-- Every child of the container is synchronised. -/
def allSynced (c : Accordion) : Bool := c.accordionItems.all AccordionItem.synced

end Accordion

namespace AccordionItem

open Accordion

/-- Frame of a run of collapses: policy, size and cached nodes stay, and no
child becomes expanded. -/
structure Shrinks (c c1 : Accordion) : Prop where
  attrs : c1.attrs = c.attrs
  userEvents : c1.allowUserEvents = c.allowUserEvents
  focused : c1.focused = c.focused
  length : c1.accordionItems.length = c.accordionItems.length
  attached : ∀ k, c1.isAttached k = c.isAttached k
  expanded : ∀ k, c1.isExpanded k = true → c.isExpanded k = true

/-- The state in which the setter's first branch reads `activeItems`. -/
def afterDisable (c : Accordion) (i : Nat) : Accordion :=
  if !c.allowToggle then
    c.modifyItem i (onButton (fun b => b.setAttribute "aria-disabled" "true"))
  else c

/-- What an operation of the code keeps: the container's attributes and
`allowUserEvents`, and, without allow-multiple, that at most one child is
expanded. -/
structure Keeps (c c1 : Accordion) : Prop where
  attrs : c1.attrs = c.attrs
  userEvents : c1.allowUserEvents = c.allowUserEvents
  atMostOne : c.allowMultiple = false → c.AtMostOne → c1.AtMostOne

/-- Two-state scanner: `inRun` tells whether the previous character was a
letter or digit. -/
def scan : Bool → List Char → Bool
  | inRun, [] => inRun
  | inRun, c :: cs =>
    if c.isAlphanum then scan true cs
    else if c = '-' ∧ inRun then scan false cs
    else false

/-- The expression left after a letter or digit has been read: `[A-Za-z0-9]*(?:-[A-Za-z0-9]+)*`. -/
def idRegexInRun : Regex :=
  .seq (.star alnumClass) (.star (.seq hyphen (Regex.plus alnumClass)))

/-- A run as the spec words it: non-empty, letters and digits only. -/
def goodRun (run : List Char) : Bool := !run.isEmpty && run.all Char.isAlphanum

end AccordionItem

/-- A finite sequence of assignments `expanded = true`, to the listed children
in turn; an assignment that raises leaves the state it had reached. -/
def expandAll (c : Accordion) : List Nat → Accordion
  | [] => c
  | i :: rest => expandAll (AccordionItem.setExpanded c i (.bool true)).1 rest

/-- The states of a container that the code produces: what the constructor
returns once `define` has returned (for children in any state of attachment),
and from there what attachment of a child, an assignment to `expanded`, a
click and a keydown event lead to. -/
inductive Reachable : Accordion → Prop where
  | constructed (attrs : List (String × String)) (children : List Node) (c : Accordion) :
      Accordion.afterDefine attrs children = .ok c → Reachable c
  | connected (document : List Element) (c : Accordion) (i : Nat) :
      Reachable c → Reachable (AccordionItem.connectedCallback document c i).1
  | assigned (c : Accordion) (i : Nat) (v : JsValue) :
      Reachable c → Reachable (AccordionItem.setExpanded c i v).1
  | clicked (c : Accordion) (i : Nat) : Reachable c → Reachable (AccordionItem.click c i).1
  | keyed (c : Accordion) (i : Nat) (code : String) :
      Reachable c → Reachable (AccordionItem.keydown c i code).1

/-! ## Example states -/

namespace Examples

open AccordionItem

/-- An item as declared in markup, before attachment. -/
def declared (id : String) (expandedAttr : Option String) (content : List Element) :
    AccordionItem :=
  { attrs := [("id", id), ("label", id)] ++
      (match expandedAttr with
        | none => []
        | some v => [("expanded", v)]),
    content := content, dom := none }

/-- The container the statements after `define` return for the given
attributes and declared items, each child then attached in turn (exceptions of
`connectedCallback` are reported by the host and the next child follows), as
when the items are inserted into a constructed container.  For children that
are present when the constructor runs see `Accordion.constructor`. -/
def build (attrs : List (String × String)) (items : List AccordionItem) : Accordion :=
  match Accordion.afterDefine attrs (items.map Node.item) with
  | .error _ => ⟨attrs, false, [], none⟩
  | .ok c => (List.range items.length).foldl (fun c i => (connectedCallback [] c i).1) c

/-- The scenario of the spec: no attributes on the container, item `a`
declared with `expanded="true"`, item `b` without the attribute. -/
def ab : Accordion := build [] [declared "a" (some "true") [], declared "b" none []]

/-- A later insertion of a declared item as last child of a constructed
container (the child collection is live): the item is upgraded, and when its
constructor has not raised, `connectedCallback` follows. -/
def insertLast (c : Accordion) (it : AccordionItem) : Accordion :=
  match AccordionItem.constructor it with
  | .error _ => { c with accordionItems := c.accordionItems ++ [it] }
  | .ok () =>
    (connectedCallback [] { c with accordionItems := c.accordionItems ++ [it] }
      c.accordionItems.length).1

/-- The scenario `ab` after `<nav-accordion-item id="1" label="1" expanded="true">`
has been inserted: its attachment raises in `_checkIdDoesnotExist`, so it stays
an expanded child without cached nodes. -/
def ab1 : Accordion := insertLast ab (declared "1" (some "true") [])

/-- A container without attributes whose first child has a malformed
identifier and `expanded="true"`, so that its attachment fails at
`_checkIdIsCorrect` and it stays without cached nodes; the second child `b`
is attached and collapsed. -/
def xb : Accordion := build [] [declared "bad id" (some "true") [], declared "b" none []]

/-- A container without attributes holding one child declared
`expanded="false"` that is not attached yet. -/
def f : Accordion :=
  { attrs := [], allowUserEvents := false,
    accordionItems := [declared "f" (some "false") []], focused := none }

/-- A container with allow-multiple and one child declared `expanded="true"`
whose content is `<div tabindex="0">`. -/
def m : Accordion :=
  build [("allow-multiple", "")] [declared "p" (some "true") [⟨"div", [("tabindex", "0")]⟩]]

end Examples

end CustomElements


/-! # Theorems -/

namespace CustomElements

/-! ## Attribute lists -/

theorem lookup_setAttr_self (l : List (String × String)) (n v : String) :
    (setAttr l n v).lookup n = some v := by
  induction l with
  | nil => simp [setAttr, List.lookup]
  | cons p l ih =>
    obtain ⟨k, x⟩ := p
    by_cases h : k = n
    · subst h; simp [setAttr, List.lookup]
    · have h2 : (n == k) = false := by simpa using fun e => h e.symm
      simp [setAttr, h, List.lookup, h2, ih]

theorem lookup_setAttr_of_ne (l : List (String × String)) {m n : String} (v : String)
    (hmn : m ≠ n) : (setAttr l n v).lookup m = l.lookup m := by
  induction l with
  | nil =>
    have h2 : (m == n) = false := by simpa using hmn
    simp [setAttr, List.lookup, h2]
  | cons p l ih =>
    obtain ⟨k, x⟩ := p
    by_cases h : k = n
    · subst h
      have h2 : (m == k) = false := by simpa using hmn
      simp [setAttr, List.lookup, h2]
    · by_cases h3 : m = k
      · subst h3; simp [setAttr, h, List.lookup]
      · have h2 : (m == k) = false := by simpa using h3
        simp [setAttr, h, List.lookup, h2, ih]

theorem lookup_removeAttr_of_ne (l : List (String × String)) {m n : String} (hmn : m ≠ n) :
    (removeAttr l n).lookup m = l.lookup m := by
  induction l with
  | nil => simp [removeAttr]
  | cons p l ih =>
    obtain ⟨k, x⟩ := p
    simp only [removeAttr] at ih ⊢
    by_cases h : k = n
    · subst h
      have h2 : (m == k) = false := by simpa using hmn
      simp [List.filter, List.lookup, h2, ih]
    · have h4 : (k != n) = true := by simpa using h
      by_cases h3 : m = k
      · subst h3; simp [List.filter, h4, List.lookup]
      · have h2 : (m == k) = false := by simpa using h3
        simp [List.filter, h4, List.lookup, h2, ih]

/-! ## Items -/

namespace AccordionItem

@[simp] theorem expanded_onButton (f : Element → Element) (it : AccordionItem) :
    (onButton f it).expanded = it.expanded := rfl

@[simp] theorem expanded_onSection (f : Element → Element) (it : AccordionItem) :
    (onSection f it).expanded = it.expanded := rfl

@[simp] theorem expanded_onDescendants (f : List Element → List Element) (it : AccordionItem) :
    (onDescendants f it).expanded = it.expanded := rfl

@[simp] theorem dom_isSome_onButton (f : Element → Element) (it : AccordionItem) :
    (onButton f it).dom.isSome = it.dom.isSome := by
  cases h : it.dom <;> simp [onButton, h]

@[simp] theorem dom_isSome_onSection (f : Element → Element) (it : AccordionItem) :
    (onSection f it).dom.isSome = it.dom.isSome := by
  cases h : it.dom <;> simp [onSection, h]

@[simp] theorem dom_isSome_onDescendants (f : List Element → List Element) (it : AccordionItem) :
    (onDescendants f it).dom.isSome = it.dom.isSome := by
  cases h : it.dom <;> simp [onDescendants, h]

@[simp] theorem dom_setAttribute (it : AccordionItem) (n v : String) :
    (it.setAttribute n v).dom = it.dom := rfl

@[simp] theorem expanded_setAttribute_true (it : AccordionItem) :
    (it.setAttribute "expanded" "true").expanded = true := by
  simp [expanded, setAttribute, getAttribute, lookup_setAttr_self]

@[simp] theorem expanded_setAttribute_false (it : AccordionItem) :
    (it.setAttribute "expanded" "false").expanded = false := by
  simp [expanded, setAttribute, getAttribute, lookup_setAttr_self]

@[simp] theorem expanded_reflectExpanded (it : AccordionItem) :
    (reflectExpanded it).expanded = true := by
  simp [reflectExpanded]

@[simp] theorem expanded_reflectCollapsed (t : Bool) (it : AccordionItem) :
    (reflectCollapsed t it).expanded = false := by
  simp [reflectCollapsed]

@[simp] theorem dom_isSome_reflectExpanded (it : AccordionItem) :
    (reflectExpanded it).dom.isSome = it.dom.isSome := by
  simp [reflectExpanded]

@[simp] theorem dom_isSome_reflectCollapsed (t : Bool) (it : AccordionItem) :
    (reflectCollapsed t it).dom.isSome = it.dom.isSome := by
  simp [reflectCollapsed]

end AccordionItem

/-! ## Containers -/

namespace Accordion

theorem item?_modifyItem (c : Accordion) (i : Nat) (f : AccordionItem → AccordionItem) (j : Nat) :
    (c.modifyItem i f).item? j = if i = j then (c.item? j).map f else c.item? j := by
  simp only [item?, modifyItem, List.getElem?_modify]
  by_cases h : i = j
  · simp [h]
  · simp [h]

@[simp] theorem attrs_modifyItem (c : Accordion) (i : Nat) (f : AccordionItem → AccordionItem) :
    (c.modifyItem i f).attrs = c.attrs := rfl

@[simp] theorem allowMultiple_modifyItem (c : Accordion) (i : Nat) (f : AccordionItem → AccordionItem) :
    (c.modifyItem i f).allowMultiple = c.allowMultiple := rfl

@[simp] theorem allowToggle_modifyItem (c : Accordion) (i : Nat) (f : AccordionItem → AccordionItem) :
    (c.modifyItem i f).allowToggle = c.allowToggle := rfl

@[simp] theorem length_modifyItem (c : Accordion) (i : Nat) (f : AccordionItem → AccordionItem) :
    (c.modifyItem i f).accordionItems.length = c.accordionItems.length := by
  simp [modifyItem]

theorem isExpanded_modifyItem (c : Accordion) (i : Nat) (f : AccordionItem → AccordionItem)
    (j : Nat) :
    (c.modifyItem i f).isExpanded j =
      if i = j then (c.item? j).map (fun it => (f it).expanded) == some true else c.isExpanded j := by
  simp only [isExpanded, item?_modifyItem]
  by_cases h : i = j
  · simp [h, Option.map_map, Function.comp_def]
  · simp [h]

theorem isAttached_modifyItem (c : Accordion) (i : Nat) (f : AccordionItem → AccordionItem)
    (hf : ∀ it, (f it).dom.isSome = it.dom.isSome) (j : Nat) :
    (c.modifyItem i f).isAttached j = c.isAttached j := by
  simp only [isAttached, item?_modifyItem]
  by_cases h : i = j
  · cases hj : c.item? j <;> simp [h, hj, hf]
  · simp [h]

theorem isExpanded_lt (c : Accordion) (j : Nat) (h : c.isExpanded j = true) :
    j < c.accordionItems.length := by
  by_contra hlt
  have : c.item? j = none := by simp [item?, List.getElem?_eq_none_iff]; omega
  simp [isExpanded, this] at h

theorem isAttached_lt (c : Accordion) (j : Nat) (h : c.isAttached j = true) :
    j < c.accordionItems.length := by
  by_contra hlt
  have : c.item? j = none := by simp [item?, List.getElem?_eq_none_iff]; omega
  simp [isAttached, this] at h

theorem mem_activeItems (c : Accordion) (j : Nat) : j ∈ c.activeItems ↔ c.isExpanded j = true := by
  simp only [activeItems, List.mem_filter, List.mem_range]
  exact ⟨fun h => h.2, fun h => ⟨isExpanded_lt c j h, h⟩⟩

theorem nodup_activeItems (c : Accordion) : c.activeItems.Nodup :=
  (List.nodup_range _).filter _

theorem length_activeItems_le_one_iff (c : Accordion) :
    c.activeItems.length ≤ 1 ↔ c.AtMostOne := by
  constructor
  · intro h j k hj hk
    have hj2 := (mem_activeItems c j).mpr hj
    have hk2 := (mem_activeItems c k).mpr hk
    match hl : c.activeItems with
    | [] => rw [hl] at hj2; cases hj2
    | [x] =>
      rw [hl] at hj2 hk2
      simp at hj2 hk2
      rw [hj2, hk2]
    | x :: y :: l => rw [hl] at h; simp at h
  · intro h
    have hnd := nodup_activeItems c
    match hl : c.activeItems with
    | [] => simp
    | [x] => simp
    | x :: y :: l =>
      exfalso
      rw [hl] at hnd
      have hx : x ∈ c.activeItems := by rw [hl]; simp
      have hy : y ∈ c.activeItems := by rw [hl]; simp
      have := h x y ((mem_activeItems c x).mp hx) ((mem_activeItems c y).mp hy)
      subst this
      simp at hnd

theorem activeItems_eq_singleton (c : Accordion) (i : Nat)
    (h : ∀ j, c.isExpanded j = true ↔ j = i) : c.activeItems = [i] := by
  apply List.perm_singleton.mp
  apply (List.perm_ext_iff_of_nodup (nodup_activeItems c) (List.nodup_singleton i)).mpr
  intro j
  rw [mem_activeItems, h, List.mem_singleton]

end Accordion

/-! ## The setter -/

namespace AccordionItem

open Accordion

theorem Shrinks.shrinks_refl (c : Accordion) : Shrinks c c :=
  ⟨rfl, rfl, rfl, rfl, fun _ => rfl, fun _ h => h⟩

theorem Shrinks.shrinks_trans {a b c : Accordion} (h1 : Shrinks a b) (h2 : Shrinks b c) : Shrinks a c :=
  ⟨h2.attrs.trans h1.attrs, h2.userEvents.trans h1.userEvents, h2.focused.trans h1.focused,
    h2.length.trans h1.length, fun k => (h2.attached k).trans (h1.attached k),
    fun k h => h1.expanded k (h2.expanded k h)⟩

theorem Shrinks.shrinks_allowMultiple {c c1 : Accordion} (h : Shrinks c c1) :
    c1.allowMultiple = c.allowMultiple := by
  simp [Accordion.allowMultiple, Accordion.hasAttribute, h.attrs]

theorem Shrinks.allowToggle {c c1 : Accordion} (h : Shrinks c c1) :
    c1.allowToggle = c.allowToggle := by
  simp [Accordion.allowToggle, Accordion.allowMultiple, Accordion.hasAttribute, h.attrs]

theorem Shrinks.atMostOne {c c1 : Accordion} (h : Shrinks c c1) (hc : c.AtMostOne) :
    c1.AtMostOne :=
  fun j k hj hk => hc j k (h.expanded j hj) (h.expanded k hk)

theorem shrinks_modifyItem (c : Accordion) (i : Nat) (f : AccordionItem → AccordionItem)
    (hd : ∀ it, (f it).dom.isSome = it.dom.isSome)
    (he : ∀ it, (f it).expanded = true → it.expanded = true) :
    Shrinks c (c.modifyItem i f) := by
  refine ⟨rfl, rfl, rfl, by simp, isAttached_modifyItem c i f hd, ?_⟩
  intro k hk
  rw [isExpanded_modifyItem] at hk
  by_cases h : i = k
  · subst h
    simp only [if_true] at hk
    cases hi : c.item? i with
    | none => simp [hi] at hk
    | some it =>
      simp [hi] at hk
      simp [isExpanded, hi, he it hk]
  · simpa [h] using hk

theorem shrinks_setExpandedFalse (c : Accordion) (j : Nat) : Shrinks c (setExpandedFalse c j).1 := by
  unfold setExpandedFalse
  split
  · exact shrinks_modifyItem c j _ (by simp) (by simp)
  · exact Shrinks.shrinks_refl c

theorem shrinks_collapseEach (js : List Nat) : ∀ c, Shrinks c (collapseEach c js).1 := by
  induction js with
  | nil => intro c; exact Shrinks.shrinks_refl c
  | cons j js ih =>
    intro c
    have h1 := shrinks_setExpandedFalse c j
    unfold collapseEach
    cases hr : setExpandedFalse c j with
    | mk c1 e =>
      rw [hr] at h1
      cases e with
      | none => exact h1.shrinks_trans (ih c1)
      | some e => exact h1

/-- A child outside the list keeps its state. -/
theorem item?_collapseEach_of_not_mem (js : List Nat) (k : Nat) (hk : k ∉ js) :
    ∀ c, (collapseEach c js).1.item? k = c.item? k := by
  induction js with
  | nil => intro c; rfl
  | cons j js ih =>
    intro c
    have hkj : j ≠ k := fun h => hk (by simp [h])
    have hk2 : k ∉ js := fun h => hk (by simp [h])
    have h1 : (setExpandedFalse c j).1.item? k = c.item? k := by
      unfold setExpandedFalse
      split
      · simp [item?_modifyItem, hkj]
      · rfl
    unfold collapseEach
    cases hr : setExpandedFalse c j with
    | mk c1 e =>
      rw [hr] at h1
      cases e with
      | none => rw [ih hk2 c1, h1]
      | some e => exact h1

/-- The loop completes when every listed child has its cached nodes. -/
theorem collapseEach_ok (js : List Nat) :
    ∀ c, (∀ k ∈ js, c.isAttached k = true) → (collapseEach c js).2 = none := by
  induction js with
  | nil => intro c _; rfl
  | cons j js ih =>
    intro c h
    have hj : c.isAttached j = true := h j (by simp)
    have h1 := shrinks_setExpandedFalse c j
    unfold collapseEach
    cases hr : setExpandedFalse c j with
    | mk c1 e =>
      rw [hr] at h1
      have he : e = none := by
        have : (setExpandedFalse c j).2 = none := by simp [setExpandedFalse, hj]
        rw [hr] at this; exact this
      subst he
      exact ih c1 (fun k hk => by rw [h1.attached k]; exact h k (by simp [hk]))

/-- A loop that completed raised on no listed child, so all of them had cached nodes. -/
theorem attached_of_collapseEach_ok (js : List Nat) :
    ∀ c, (collapseEach c js).2 = none → ∀ k ∈ js, c.isAttached k = true := by
  induction js with
  | nil => intro c _ k hk; cases hk
  | cons j js ih =>
    intro c h k hk
    have h1 := shrinks_setExpandedFalse c j
    unfold collapseEach at h
    by_cases hj : c.isAttached j = true
    · have hr : setExpandedFalse c j = (c.modifyItem j (reflectCollapsed c.allowToggle), none) := by
        simp [setExpandedFalse, hj]
      rw [hr] at h h1
      rcases List.mem_cons.mp hk with rfl | hk
      · exact hj
      · have := ih _ h k hk
        rwa [h1.attached k] at this
    · have hr : setExpandedFalse c j = (c, some .typeError) := by simp [setExpandedFalse, hj]
      rw [hr] at h
      simp at h

/-- After a loop that completed no listed child is expanded. -/
theorem isExpanded_collapseEach_of_mem (js : List Nat) :
    ∀ c, (collapseEach c js).2 = none → ∀ k ∈ js, (collapseEach c js).1.isExpanded k = false := by
  induction js with
  | nil => intro c _ k hk; cases hk
  | cons j js ih =>
    intro c h k hk
    by_cases hj : c.isAttached j = true
    · have hr : setExpandedFalse c j = (c.modifyItem j (reflectCollapsed c.allowToggle), none) := by
        simp [setExpandedFalse, hj]
      unfold collapseEach at h ⊢
      rw [hr] at h ⊢
      simp only at h ⊢
      by_cases hkjs : k ∈ js
      · exact ih _ h k hkjs
      · have hkj : k = j := by
          rcases List.mem_cons.mp hk with h | h
          · exact h
          · exact absurd h hkjs
        subst hkj
        have h2 := (shrinks_collapseEach js (c.modifyItem k (reflectCollapsed c.allowToggle))).expanded k
        have h3 : (c.modifyItem k (reflectCollapsed c.allowToggle)).isExpanded k = false := by
          rw [isExpanded_modifyItem]
          cases hi : c.item? k <;> simp [hi]
        cases hh : (collapseEach (c.modifyItem k (reflectCollapsed c.allowToggle)) js).1.isExpanded k
        · rfl
        · rw [h2 hh] at h3; cases h3
    · have hr : setExpandedFalse c j = (c, some .typeError) := by simp [setExpandedFalse, hj]
      unfold collapseEach at h
      rw [hr] at h
      simp at h

/-- Marking the trigger disabled changes neither the expanded flags nor the
cached nodes. -/
theorem shrinks_disable (c : Accordion) (i : Nat) :
    Shrinks c (c.modifyItem i (onButton (fun b => b.setAttribute "aria-disabled" "true"))) :=
  shrinks_modifyItem c i _ (by simp) (by simp)

theorem isExpanded_disable (c : Accordion) (i k : Nat) :
    (c.modifyItem i (onButton (fun b => b.setAttribute "aria-disabled" "true"))).isExpanded k =
      c.isExpanded k := by
  rw [isExpanded_modifyItem]
  by_cases h : i = k
  · simp [h, isExpanded]
  · simp [h]

theorem shrinks_afterDisable (c : Accordion) (i : Nat) : Shrinks c (afterDisable c i) := by
  unfold afterDisable
  split
  · exact shrinks_disable c i
  · exact Shrinks.shrinks_refl c

theorem isExpanded_afterDisable (c : Accordion) (i k : Nat) :
    (afterDisable c i).isExpanded k = c.isExpanded k := by
  unfold afterDisable
  split
  · exact isExpanded_disable c i k
  · rfl

theorem setExpanded_truthy (c : Accordion) (i : Nat) (v : JsValue) (hv : v.truthy = true)
    (hi : c.isAttached i = true) :
    setExpanded c i v =
      match (if !c.allowMultiple then
          collapseEach (afterDisable c i) (afterDisable c i).activeItems
        else (afterDisable c i, none)) with
      | (c2, none) => (c2.modifyItem i reflectExpanded, none)
      | (c2, some e) => (c2, some e) := by
  have hm : (afterDisable c i).allowMultiple = c.allowMultiple :=
    (shrinks_afterDisable c i).shrinks_allowMultiple
  simp only [setExpanded, hv, hi, if_true, afterDisable] at hm ⊢
  rw [hm]

theorem isExpanded_modifyItem_reflectExpanded (c : Accordion) (i k : Nat)
    (hi : c.isAttached i = true) :
    (c.modifyItem i reflectExpanded).isExpanded k = if i = k then true else c.isExpanded k := by
  rw [isExpanded_modifyItem]
  by_cases h : i = k
  · subst h
    cases hit : c.item? i with
    | none => simp [isAttached, hit] at hi
    | some it => simp
  · simp [h]

/-- Whatever is assigned and whether or not the assignment raises, a container
without allow-multiple that has at most one expanded child keeps that property. -/
theorem atMostOne_setExpanded (c : Accordion) (i : Nat) (v : JsValue)
    (hm : c.allowMultiple = false) (h1 : c.AtMostOne) : (setExpanded c i v).1.AtMostOne := by
  by_cases hv : v.truthy = true
  · by_cases hi : c.isAttached i = true
    · rw [setExpanded_truthy c i v hv hi]
      simp only [hm, Bool.not_false, if_true]
      have hs := shrinks_afterDisable c i
      have hs2 := shrinks_collapseEach (afterDisable c i).activeItems (afterDisable c i)
      cases hr : collapseEach (afterDisable c i) (afterDisable c i).activeItems with
      | mk c2 e =>
        rw [hr] at hs2
        cases e with
        | some e => exact (hs.shrinks_trans hs2).atMostOne h1
        | none =>
          have hnone : ∀ k, c2.isExpanded k = false := by
            intro k
            by_cases hk : k ∈ (afterDisable c i).activeItems
            · have := isExpanded_collapseEach_of_mem _ (afterDisable c i) (by rw [hr]) k hk
              rwa [hr] at this
            · have h3 := item?_collapseEach_of_not_mem _ k hk (afterDisable c i)
              rw [hr] at h3
              have h4 : (afterDisable c i).isExpanded k = false := by
                rw [mem_activeItems] at hk
                simpa using hk
              simp only [isExpanded] at h4 ⊢
              rw [h3]; exact h4
          have hi2 : c2.isAttached i = true := by
            rw [(hs.shrinks_trans hs2).attached i]; exact hi
          intro j k hj hk
          simp only [isExpanded_modifyItem_reflectExpanded c2 i _ hi2, hnone] at hj hk
          have e1 : i = j := by by_contra hne; simp [hne] at hj
          have e2 : i = k := by by_contra hne; simp [hne] at hk
          omega
    · simp only [setExpanded, hv, hi, if_true]
      exact h1
  · simp only [setExpanded, hv]
    exact (shrinks_setExpandedFalse c i).atMostOne h1

theorem allowMultiple_setExpanded (c : Accordion) (i : Nat) (v : JsValue) :
    (setExpanded c i v).1.allowMultiple = c.allowMultiple := by
  by_cases hv : v.truthy = true
  · by_cases hi : c.isAttached i = true
    · rw [setExpanded_truthy c i v hv hi]
      have hs := shrinks_afterDisable c i
      by_cases hm : c.allowMultiple = true
      · simp [hm, hs.shrinks_allowMultiple]
      · have hm2 : c.allowMultiple = false := by simpa using hm
        simp only [hm2, Bool.not_false, if_true]
        have hs2 := shrinks_collapseEach (afterDisable c i).activeItems (afterDisable c i)
        cases hr : collapseEach (afterDisable c i) (afterDisable c i).activeItems with
        | mk c2 e =>
          rw [hr] at hs2
          cases e with
          | some e => simpa using (hs.shrinks_trans hs2).shrinks_allowMultiple.trans hm2
          | none => simpa using (hs.shrinks_trans hs2).shrinks_allowMultiple.trans hm2
    · simp [setExpanded, hv, hi]
  · simp only [setExpanded, hv]
    exact (shrinks_setExpandedFalse c i).shrinks_allowMultiple

/-- After the loop over `activeItems` has completed no child is expanded. -/
theorem isExpanded_collapseEach_activeItems (c : Accordion)
    (h : (collapseEach c c.activeItems).2 = none) (k : Nat) :
    (collapseEach c c.activeItems).1.isExpanded k = false := by
  by_cases hk : k ∈ c.activeItems
  · exact isExpanded_collapseEach_of_mem _ c h k hk
  · have h3 := item?_collapseEach_of_not_mem _ k hk c
    have h4 : c.isExpanded k = false := by
      rw [mem_activeItems] at hk
      simpa using hk
    simp only [isExpanded] at h4 ⊢
    rw [h3]; exact h4

/-- The first branch of the setter in a container without allow-multiple whose
expanded children all have their cached nodes: it completes, and afterwards
child `i` is expanded and no other child is. -/
theorem setExpanded_truthy_single (c : Accordion) (i : Nat) (v : JsValue) (hv : v.truthy = true)
    (hm : c.allowMultiple = false) (hi : c.isAttached i = true)
    (hall : ∀ k, c.isExpanded k = true → c.isAttached k = true) :
    (setExpanded c i v).2 = none ∧
      ∀ k, (setExpanded c i v).1.isExpanded k = decide (i = k) := by
  rw [setExpanded_truthy c i v hv hi]
  simp only [hm, Bool.not_false, if_true]
  have hs := shrinks_afterDisable c i
  have hok : (collapseEach (afterDisable c i) (afterDisable c i).activeItems).2 = none := by
    apply collapseEach_ok
    intro k hk
    rw [mem_activeItems, isExpanded_afterDisable] at hk
    rw [hs.attached k]
    exact hall k hk
  have hnone := isExpanded_collapseEach_activeItems (afterDisable c i) hok
  have hs2 := shrinks_collapseEach (afterDisable c i).activeItems (afterDisable c i)
  cases hr : collapseEach (afterDisable c i) (afterDisable c i).activeItems with
  | mk c2 e =>
    rw [hr] at hok hnone hs2
    simp only at hok
    subst hok
    have hi2 : c2.isAttached i = true := by
      rw [(hs.shrinks_trans hs2).attached i]; exact hi
    refine ⟨rfl, fun k => ?_⟩
    simp only [isExpanded_modifyItem_reflectExpanded c2 i _ hi2, hnone]
    by_cases h : i = k <;> simp [h]

end AccordionItem

/-! ## Claim C1 -/

/-- C1. In a container without the allow-multiple attribute whose children
include at most one expanded item, after any finite sequence of assignments
`expanded = true` to its children (attached or not, and whether or not an
assignment raises) `activeItems` has length at most 1. -/
theorem activeItems_length_le_one_after_expands (c : Accordion) (items : List Nat)
    (hm : c.allowMultiple = false) (h0 : c.activeItems.length ≤ 1) :
    (expandAll c items).activeItems.length ≤ 1 := by
  induction items generalizing c with
  | nil => exact h0
  | cons i rest ih =>
    apply ih
    · rw [AccordionItem.allowMultiple_setExpanded]; exact hm
    · rw [Accordion.length_activeItems_le_one_iff] at h0 ⊢
      exact AccordionItem.atMostOne_setExpanded c i _ hm h0

/-- Witness for C1: the scenario `Examples.ab`, expanding `b`, `a`, `b`. -/
theorem activeItems_length_le_one_after_expands_witness :
    (expandAll Examples.ab [1, 0, 1]).activeItems.length ≤ 1 :=
  activeItems_length_le_one_after_expands Examples.ab [1, 0, 1] (by decide) (by decide)

/-! ## ARIA synchronisation -/

namespace Element

theorem getAttribute_setAttribute_self (e : Element) (n v : String) :
    (e.setAttribute n v).getAttribute n = some v := by
  simp [getAttribute, setAttribute, lookup_setAttr_self]

theorem getAttribute_setAttribute_of_ne (e : Element) {m n : String} (v : String) (h : m ≠ n) :
    (e.setAttribute n v).getAttribute m = e.getAttribute m := by
  simp [getAttribute, setAttribute, lookup_setAttr_of_ne _ _ h]

theorem getAttribute_removeAttribute_of_ne (e : Element) {m n : String} (h : m ≠ n) :
    (e.removeAttribute n).getAttribute m = e.getAttribute m := by
  simp [getAttribute, removeAttribute, lookup_removeAttr_of_ne _ h]

end Element

namespace AccordionItem

open Accordion

theorem synced_reflectExpanded (it : AccordionItem) : (reflectExpanded it).synced = true := by
  have he := expanded_reflectExpanded it
  unfold synced
  rw [he]
  cases hd : it.dom with
  | none => simp [reflectExpanded, onDescendants, onSection, onButton, setAttribute, hd]
  | some d =>
    simp [reflectExpanded, onDescendants, onSection, onButton, setAttribute, hd,
      Element.getAttribute_setAttribute_self, boolString]

theorem synced_reflectCollapsed (t : Bool) (it : AccordionItem) :
    (reflectCollapsed t it).synced = true := by
  have he := expanded_reflectCollapsed t it
  unfold synced
  rw [he]
  cases hd : it.dom with
  | none => simp [reflectCollapsed, onDescendants, onSection, onButton, setAttribute, hd]
  | some d =>
    simp [reflectCollapsed, onDescendants, onSection, onButton, setAttribute, hd,
      Element.getAttribute_setAttribute_self, boolString]

theorem synced_disable (it : AccordionItem) (h : it.synced = true) :
    (onButton (fun b => b.setAttribute "aria-disabled" "true") it).synced = true := by
  unfold synced at h ⊢
  cases hd : it.dom with
  | none => simp [onButton, hd]
  | some d =>
    rw [hd] at h
    have hne : "aria-expanded" ≠ "aria-disabled" := by decide
    simpa [onButton, hd, expanded, getAttribute,
      Element.getAttribute_setAttribute_of_ne _ _ hne] using h

theorem allSynced_iff (c : Accordion) :
    c.allSynced = true ↔ ∀ k it, c.item? k = some it → it.synced = true := by
  simp only [allSynced, List.all_eq_true, item?]
  constructor
  · intro h k it hk
    exact h it (List.getElem?_mem hk)
  · intro h it hit
    obtain ⟨k, hk⟩ := List.mem_iff_getElem?.mp hit
    exact h k it hk

theorem allSynced_modifyItem (c : Accordion) (i : Nat) (f : AccordionItem → AccordionItem)
    (hf : ∀ it, it.synced = true → (f it).synced = true) (h : c.allSynced = true) :
    (c.modifyItem i f).allSynced = true := by
  rw [allSynced_iff] at h ⊢
  intro k it hk
  rw [item?_modifyItem] at hk
  by_cases hik : i = k
  · subst hik
    simp only [if_true] at hk
    cases hi : c.item? i with
    | none => simp [hi] at hk
    | some it0 =>
      simp [hi] at hk
      subst hk
      exact hf it0 (h i it0 hi)
  · simp only [hik, if_false] at hk
    exact h k it hk

theorem allSynced_setExpandedFalse (c : Accordion) (j : Nat) (h : c.allSynced = true) :
    (setExpandedFalse c j).1.allSynced = true := by
  unfold setExpandedFalse
  split
  · exact allSynced_modifyItem c j _ (fun it _ => synced_reflectCollapsed _ it) h
  · exact h

theorem allSynced_collapseEach (js : List Nat) :
    ∀ c, c.allSynced = true → (collapseEach c js).1.allSynced = true := by
  induction js with
  | nil => intro c h; exact h
  | cons j js ih =>
    intro c h
    have h1 := allSynced_setExpandedFalse c j h
    unfold collapseEach
    cases hr : setExpandedFalse c j with
    | mk c1 e =>
      rw [hr] at h1
      cases e with
      | none => exact ih c1 h1
      | some e => exact h1

theorem allSynced_afterDisable (c : Accordion) (i : Nat) (h : c.allSynced = true) :
    (afterDisable c i).allSynced = true := by
  unfold afterDisable
  split
  · exact allSynced_modifyItem c i _ (fun it hit => synced_disable it hit) h
  · exact h

/-- The setter keeps the synchronisation, whether or not it raises. -/
theorem allSynced_setExpanded (c : Accordion) (i : Nat) (v : JsValue) (h : c.allSynced = true) :
    (setExpanded c i v).1.allSynced = true := by
  by_cases hv : v.truthy = true
  · by_cases hi : c.isAttached i = true
    · rw [setExpanded_truthy c i v hv hi]
      have h1 := allSynced_afterDisable c i h
      by_cases hm : c.allowMultiple = true
      · simp only [hm, Bool.not_true, Bool.false_eq_true, if_false]
        exact allSynced_modifyItem _ i _ (fun it _ => synced_reflectExpanded it) h1
      · have hm2 : c.allowMultiple = false := by simpa using hm
        simp only [hm2, Bool.not_false, if_true]
        have h2 := allSynced_collapseEach (afterDisable c i).activeItems _ h1
        cases hr : collapseEach (afterDisable c i) (afterDisable c i).activeItems with
        | mk c2 e =>
          rw [hr] at h2
          cases e with
          | some e => exact h2
          | none => exact allSynced_modifyItem _ i _ (fun it _ => synced_reflectExpanded it) h2
    · simp only [setExpanded, hv, hi, if_true]
      exact h
  · simp only [setExpanded, hv]
    exact allSynced_setExpandedFalse c i h

/-- The setter of an attached child completes unless its first branch runs in
a container without allow-multiple; then it completes when every expanded
child is attached.  On completion the getter returns the truthiness of what
was assigned. -/
theorem setExpanded_completes (c : Accordion) (i : Nat) (v : JsValue)
    (hi : c.isAttached i = true)
    (hall : v.truthy = true → c.allowMultiple = false →
      ∀ k ∈ c.activeItems, c.isAttached k = true) :
    (setExpanded c i v).2 = none ∧ (setExpanded c i v).1.isExpanded i = v.truthy := by
  by_cases hv : v.truthy = true
  · by_cases hm : c.allowMultiple = true
    · rw [setExpanded_truthy c i v hv hi]
      simp only [hm, Bool.not_true, Bool.false_eq_true, if_false, hv, true_and]
      rw [isExpanded_modifyItem_reflectExpanded]
      · simp
      · rw [(shrinks_afterDisable c i).attached]; exact hi
    · have hm2 : c.allowMultiple = false := by simpa using hm
      obtain ⟨h1, h2⟩ := setExpanded_truthy_single c i v hv hm2 hi
        (fun k hk => hall hv hm2 k ((mem_activeItems c k).mpr hk))
      refine ⟨h1, ?_⟩
      rw [h2, hv]; simp
  · have hv2 : v.truthy = false := by simpa using hv
    simp only [setExpanded, hv, setExpandedFalse, hi, if_true, hv2, Bool.false_eq_true, if_false,
      true_and]
    rw [isExpanded_modifyItem]
    cases hit : c.item? i with
    | none => simp [isAttached, hit] at hi
    | some it => simp

end AccordionItem

/-! ## Containers the code can produce -/

namespace AccordionItem

open Accordion

theorem Keeps.refl (c : Accordion) : Keeps c c := ⟨rfl, rfl, fun _ h => h⟩

theorem Keeps.allowMultiple {c c1 : Accordion} (h : Keeps c c1) :
    c1.allowMultiple = c.allowMultiple := by
  simp [Accordion.allowMultiple, Accordion.hasAttribute, h.attrs]

theorem Keeps.trans {a b c : Accordion} (h1 : Keeps a b) (h2 : Keeps b c) : Keeps a c :=
  ⟨h2.attrs.trans h1.attrs, h2.userEvents.trans h1.userEvents,
    fun hm h => h2.atMostOne (h1.allowMultiple.trans hm) (h1.atMostOne hm h)⟩

theorem keeps_modifyItem (c : Accordion) (i : Nat) (f : AccordionItem → AccordionItem)
    (hf : ∀ it, (f it).expanded = it.expanded) : Keeps c (c.modifyItem i f) := by
  refine ⟨rfl, rfl, fun _ h j k hj hk => h j k ?_ ?_⟩
  · rw [isExpanded_modifyItem] at hj
    by_cases hij : i = j
    · subst hij
      cases hit : c.item? i with
      | none => simp [hit] at hj
      | some it => simpa [hit, hf, isExpanded] using hj
    · simpa [hij] using hj
  · rw [isExpanded_modifyItem] at hk
    by_cases hik : i = k
    · subst hik
      cases hit : c.item? i with
      | none => simp [hit] at hk
      | some it => simpa [hit, hf, isExpanded] using hk
    · simpa [hik] using hk

theorem keeps_setExpanded (c : Accordion) (i : Nat) (v : JsValue) :
    Keeps c (setExpanded c i v).1 := by
  refine ⟨?_, ?_, fun hm h => atMostOne_setExpanded c i v hm h⟩
  all_goals
    by_cases hv : v.truthy = true
    · by_cases hi : c.isAttached i = true
      · rw [setExpanded_truthy c i v hv hi]
        have hs := shrinks_afterDisable c i
        have hs2 := shrinks_collapseEach (afterDisable c i).activeItems (afterDisable c i)
        by_cases hm : c.allowMultiple = true
        · simp [hm, hs.attrs, hs.userEvents, modifyItem]
        · have hm2 : c.allowMultiple = false := by simpa using hm
          simp only [hm2, Bool.not_false, if_true]
          cases hr : collapseEach (afterDisable c i) (afterDisable c i).activeItems with
          | mk c2 e =>
            rw [hr] at hs2
            cases e with
            | some e => first | exact (hs.shrinks_trans hs2).attrs | exact (hs.shrinks_trans hs2).userEvents
            | none =>
              first
                | exact (hs.shrinks_trans hs2).attrs
                | exact (hs.shrinks_trans hs2).userEvents
      · simp [setExpanded, hv, hi]
    · simp only [setExpanded, hv]
      first
        | exact (shrinks_setExpandedFalse c i).attrs
        | exact (shrinks_setExpandedFalse c i).userEvents

theorem keeps_focus (c : Accordion) (i : Nat) : Keeps c (focus c i).1 := by
  unfold focus
  split
  · exact ⟨rfl, rfl, fun _ h => h⟩
  · exact Keeps.refl c

theorem keeps_focusAt (c : Accordion) (k : Int) : Keeps c (c.focusAt k).1 := by
  unfold focusAt
  split
  · exact keeps_focus c _
  · exact Keeps.refl c

theorem keeps_toggle (c : Accordion) (i : Nat) : Keeps c (toggle c i).1 := by
  unfold toggle
  split <;> exact keeps_setExpanded c i _

theorem keeps_click (c : Accordion) (i : Nat) : Keeps c (click c i).1 := by
  unfold click
  split
  · exact Keeps.refl c
  · split
    · split
      · exact keeps_toggle c i
      · exact Keeps.refl c
    · exact Keeps.refl c

theorem keeps_keydown (c : Accordion) (i : Nat) (code : String) :
    Keeps c (keydown c i code).1 := by
  unfold keydown
  split
  · exact Keeps.refl c
  · split
    · exact Keeps.refl c
    · split
      · exact keeps_toggle c i
      · split
        · exact keeps_focusAt c _
        · split
          · exact keeps_focusAt c _
          · split
            · exact keeps_focusAt c _
            · split
              · exact keeps_focusAt c _
              · exact Keeps.refl c

theorem keeps_accessibleTrigger (c : Accordion) (i : Nat) :
    Keeps c (_accessibleTrigger c i).1 := by
  unfold _accessibleTrigger
  split
  · exact Keeps.refl c
  · rename_i it _
    simp only
    have k1 := keeps_modifyItem c i
      (onButton (fun b => (b.setAttribute "tabindex" "0").setAttribute "id" ("label-" ++ it.id)))
      (fun _ => rfl)
    generalize c.modifyItem i _ = c1 at k1 ⊢
    have k2 := keeps_setExpanded c1 i (JsValue.ofAttr (it.getAttribute "expanded"))
    cases hr : setExpanded c1 i (JsValue.ofAttr (it.getAttribute "expanded")) with
    | mk c2 e =>
      rw [hr] at k2
      cases e with
      | some e => exact k1.trans k2
      | none => exact (k1.trans k2).trans (keeps_modifyItem c2 i _ (fun _ => rfl))

theorem keeps_connectedCallback (document : List Element) (c : Accordion) (i : Nat) :
    Keeps c (connectedCallback document c i).1 := by
  unfold connectedCallback
  split
  · exact Keeps.refl c
  · split
    · exact Keeps.refl c
    · split
      · exact Keeps.refl c
      · have k1 := keeps_modifyItem c i _cacheDOM (fun _ => rfl)
        generalize c.modifyItem i _cacheDOM = c1 at k1 ⊢
        have k2 := keeps_accessibleTrigger c1 i
        cases hr : _accessibleTrigger c1 i with
        | mk c2 e =>
          rw [hr] at k2
          cases e with
          | some e => exact k1.trans k2
          | none =>
            simp only
            have k3 := keeps_modifyItem c2 i _accessibleSection (fun _ => rfl)
            generalize c2.modifyItem i _accessibleSection = c3 at k3 ⊢
            have k4 := keeps_modifyItem c3 i (_eventListeners c.allowUserEvents) (fun _ => rfl)
            generalize c3.modifyItem i (_eventListeners c.allowUserEvents) = c4 at k4 ⊢
            have k14 := ((k1.trans k2).trans k3).trans k4
            split
            · exact k14.trans (keeps_modifyItem c4 i _ (fun _ => rfl))
            · exact k14

end AccordionItem

section

open Accordion AccordionItem

/-- The constructor returns a container that has no `allowUserEvents` and, without
allow-multiple, at most one expanded child. -/
theorem afterDefine_ok (attrs : List (String × String)) (children : List Node) (c : Accordion)
    (h : Accordion.afterDefine attrs children = .ok c) :
    c.allowUserEvents = false ∧ c.attrs = attrs ∧ children.all Node.isItem = true ∧
      c.accordionItems = Node.items children ∧
      (c.allowMultiple = false → c.activeItems.length ≤ 1) := by
  unfold Accordion.afterDefine at h
  simp only [Accordion._checkDOMIsCorrect] at h
  by_cases hall : children.all Node.isItem = true
  · simp only [hall, if_true] at h
    split at h
    · cases h
    · rename_i hcond
      injection h with h
      subst h
      refine ⟨rfl, rfl, hall, rfl, fun hm => ?_⟩
      simp only [hm, Bool.not_false, Bool.true_and, decide_eq_true_eq] at hcond
      omega
  · simp [hall] at h

/-- Invariants of the containers the code produces. -/
theorem Reachable.invariant {c : Accordion} (h : Reachable c) :
    c.allowUserEvents = false ∧ (c.allowMultiple = false → c.AtMostOne) := by
  induction h with
  | constructed attrs children c hc =>
    obtain ⟨h1, _, _, _, h5⟩ := afterDefine_ok attrs children c hc
    exact ⟨h1, fun hm => (length_activeItems_le_one_iff c).mp (h5 hm)⟩
  | connected document c i _ ih =>
    have k := keeps_connectedCallback document c i
    exact ⟨k.userEvents.trans ih.1, fun hm =>
      k.atMostOne (k.allowMultiple.symm.trans hm) (ih.2 (k.allowMultiple.symm.trans hm))⟩
  | assigned c i v _ ih =>
    have k := keeps_setExpanded c i v
    exact ⟨k.userEvents.trans ih.1, fun hm =>
      k.atMostOne (k.allowMultiple.symm.trans hm) (ih.2 (k.allowMultiple.symm.trans hm))⟩
  | clicked c i _ ih =>
    have k := keeps_click c i
    exact ⟨k.userEvents.trans ih.1, fun hm =>
      k.atMostOne (k.allowMultiple.symm.trans hm) (ih.2 (k.allowMultiple.symm.trans hm))⟩
  | keyed c i code _ ih =>
    have k := keeps_keydown c i code
    exact ⟨k.userEvents.trans ih.1, fun hm =>
      k.atMostOne (k.allowMultiple.symm.trans hm) (ih.2 (k.allowMultiple.symm.trans hm))⟩

end

/-- Every scenario made by `Examples.build` is a state the code produces. -/
theorem Examples.reachable_build (attrs : List (String × String)) (items : List AccordionItem) :
    Reachable (Examples.build attrs items) := by
  unfold Examples.build
  split
  · exact Reachable.constructed attrs [] _
      (by simp [Accordion.afterDefine, Accordion._checkDOMIsCorrect, Accordion.activeItems,
        Node.items])
  · rename_i c hc
    have h0 : Reachable c := Reachable.constructed attrs _ c hc
    clear hc
    generalize List.range items.length = js
    induction js generalizing c with
    | nil => exact h0
    | cons j js ih =>
      simp only [List.foldl_cons]
      exact ih _ (Reachable.connected [] c j h0)

/-! ## Claim C2 -/

/-- C2, as stated, fails: `Examples.ab1` is the scenario `Examples.ab` after an
item with identifier `1` and `expanded="true"` has been inserted, whose
attachment raised in `_checkIdDoesnotExist`.  The container has no
allow-multiple, children 0 and 1 are distinct and attached and child 0 is
expanded; the assignment `expanded = true` to child 1 collapses child 0, raises
on child 2, which has no cached nodes, and leaves child 1 collapsed. -/
theorem expand_sibling_counterexample :
    Examples.ab1.allowMultiple = false ∧ Examples.ab1.isAttached 0 = true ∧
      Examples.ab1.isAttached 1 = true ∧ Examples.ab1.isExpanded 0 = true ∧
      Examples.ab1.isAttached 2 = false ∧ Examples.ab1.isExpanded 2 = true ∧
      (AccordionItem.setExpanded Examples.ab1 1 (.bool true)).2 = some .typeError ∧
      (AccordionItem.setExpanded Examples.ab1 1 (.bool true)).1.isExpanded 1 = false ∧
      (AccordionItem.setExpanded Examples.ab1 1 (.bool true)).1.activeItems = [2] := by
  decide

/-- C2, amended. In a container without allow-multiple in which every expanded
child is attached, for two distinct attached children `a` and `b` with `a`
expanded, the assignment `b.expanded = true` completes, and afterwards `a` is
collapsed, `b` is expanded and `activeItems` is exactly `[b]`. -/
theorem expand_collapses_expanded_sibling (c : Accordion) (a b : Nat)
    (hm : c.allowMultiple = false)
    (hall : ∀ k ∈ c.activeItems, c.isAttached k = true) (hab : a ≠ b)
    (_haA : c.isAttached a = true) (hbA : c.isAttached b = true)
    (_haE : c.isExpanded a = true) :
    (AccordionItem.setExpanded c b (.bool true)).2 = none ∧
      (AccordionItem.setExpanded c b (.bool true)).1.isExpanded a = false ∧
      (AccordionItem.setExpanded c b (.bool true)).1.isExpanded b = true ∧
      (AccordionItem.setExpanded c b (.bool true)).1.activeItems = [b] := by
  obtain ⟨h1, h2⟩ := AccordionItem.setExpanded_truthy_single c b (.bool true) rfl hm hbA
    (fun k hk => hall k ((Accordion.mem_activeItems c k).mpr hk))
  refine ⟨h1, ?_, ?_, ?_⟩
  · rw [h2]; simpa using fun h : b = a => hab h.symm
  · rw [h2]; simp
  · apply Accordion.activeItems_eq_singleton
    intro j
    rw [h2]
    simp [eq_comm]

/-- Witness for C2 amended: the scenario `Examples.ab`, expanding `b`. -/
theorem expand_collapses_expanded_sibling_witness :
    (AccordionItem.setExpanded Examples.ab 1 (.bool true)).2 = none ∧
      (AccordionItem.setExpanded Examples.ab 1 (.bool true)).1.isExpanded 0 = false ∧
      (AccordionItem.setExpanded Examples.ab 1 (.bool true)).1.isExpanded 1 = true ∧
      (AccordionItem.setExpanded Examples.ab 1 (.bool true)).1.activeItems = [1] :=
  expand_collapses_expanded_sibling Examples.ab 0 1 (by decide) (by decide) (by decide)
    (by decide) (by decide) (by decide)

/-! ## Claim C8 -/

/-- C8. In a container where toggling is disallowed (neither allow-multiple nor
allow-toggle), in any state the code produces, a click on the trigger of an
attached child that is expanded raises nothing, leaves that child expanded
and leaves the expanded state of every other child unchanged. -/
theorem click_on_expanded_keeps_states (c : Accordion) (i : Nat) (hr : Reachable c)
    (ht : c.allowToggle = false) (hiA : c.isAttached i = true) (hiE : c.isExpanded i = true) :
    (AccordionItem.click c i).2 = none ∧ (AccordionItem.click c i).1.isExpanded i = true ∧
      ∀ k, k ≠ i → (AccordionItem.click c i).1.isExpanded k = c.isExpanded k := by
  have hm : c.allowMultiple = false := by
    by_contra h
    simp [Accordion.allowToggle, h] at ht
  have hone := hr.invariant.2 hm
  have hset := AccordionItem.setExpanded_truthy_single c i (.bool true) rfl hm hiA
    (fun k hk => by rw [hone k i hk hiE]; exact hiA)
  have hsame : ∀ k, k ≠ i →
      (AccordionItem.setExpanded c i (.bool true)).1.isExpanded k = c.isExpanded k := by
    intro k hk
    rw [hset.2]
    cases hck : c.isExpanded k
    · simpa using fun h : i = k => hk h.symm
    · exact absurd (hone k i hck hiE) hk
  unfold AccordionItem.click
  split
  · exact ⟨rfl, hiE, fun _ _ => rfl⟩
  · split
    · split
      · simp only [AccordionItem.toggle, ht, Bool.not_false, if_true]
        refine ⟨hset.1, ?_, hsame⟩
        rw [hset.2]; simp
      · exact ⟨rfl, hiE, fun _ _ => rfl⟩
    · exact ⟨rfl, hiE, fun _ _ => rfl⟩

/-- Witness for C8: the scenario `Examples.ab`, a click on the trigger of `a`. -/
theorem click_on_expanded_keeps_states_witness :
    (AccordionItem.click Examples.ab 0).2 = none ∧
      (AccordionItem.click Examples.ab 0).1.isExpanded 0 = true ∧
      ∀ k, k ≠ 0 → (AccordionItem.click Examples.ab 0).1.isExpanded k = Examples.ab.isExpanded k :=
  click_on_expanded_keeps_states Examples.ab 0 (Examples.reachable_build _ _) (by decide)
    (by decide) (by decide)

/-! ## Claim C9 -/

/-- C9, as stated, fails: in `Examples.xb`, a state the code produces, every
child is synchronised and child 1 is attached, yet the assignment
`expanded = true` to child 1 raises while it collapses the expanded child 0,
which has no cached nodes, and the getter of child 1 then returns `false`. -/
theorem aria_sync_counterexample :
    Reachable Examples.xb ∧ Examples.xb.allSynced = true ∧ Examples.xb.isAttached 1 = true ∧
      (AccordionItem.setExpanded Examples.xb 1 (.bool true)).2 = some .typeError ∧
      (AccordionItem.setExpanded Examples.xb 1 (.bool true)).1.isExpanded 1 = false :=
  ⟨Examples.reachable_build _ _, by decide⟩

/-- C9, amended. If every child of a container is synchronised (the trigger's
`aria-expanded` is the expanded state, the region's `aria-hidden` its
negation), then after any assignment `item.expanded = v`, raising or not, every
child is synchronised; and when the assigned child is attached and, for a
truthy `v` in a container without allow-multiple, every expanded child is
attached, the assignment completes and the getter of the assigned child
returns the truthiness of `v`. -/
theorem aria_sync_invariant (c : Accordion) (i : Nat) (v : JsValue)
    (hs : c.allSynced = true) :
    (AccordionItem.setExpanded c i v).1.allSynced = true ∧
      (c.isAttached i = true →
        (v.truthy = true → c.allowMultiple = false →
          ∀ k ∈ c.activeItems, c.isAttached k = true) →
        (AccordionItem.setExpanded c i v).2 = none ∧
          (AccordionItem.setExpanded c i v).1.isExpanded i = v.truthy) :=
  ⟨AccordionItem.allSynced_setExpanded c i v hs,
    fun hi hall => AccordionItem.setExpanded_completes c i v hi hall⟩

/-- Witness for C9 amended: the scenario `Examples.ab`, assigning `true` to `b`. -/
theorem aria_sync_invariant_witness :
    Examples.ab.allSynced = true ∧
      (AccordionItem.setExpanded Examples.ab 1 (.bool true)).1.allSynced = true ∧
      (AccordionItem.setExpanded Examples.ab 1 (.bool true)).2 = none ∧
      (AccordionItem.setExpanded Examples.ab 1 (.bool true)).1.isExpanded 1 = true :=
  have h := aria_sync_invariant Examples.ab 1 (.bool true) (by decide)
  ⟨by decide, h.1, h.2 (by decide) (fun _ _ => by decide)⟩

/-! ## Claim C3 -/

/-- C3, as stated, fails: `Examples.xb`, a state the code produces, has two
children, and both `goToNextItem` and `goToPreviousItem` of child 1 raise: the
child they reach, child 0, has no cached trigger. -/
theorem goTo_counterexample :
    Reachable Examples.xb ∧ Examples.xb.accordionItems.length = 2 ∧
      (Examples.xb.goToNextItem 1).2 = some .typeError ∧
      (Examples.xb.goToPreviousItem 1).2 = some .typeError :=
  ⟨Examples.reachable_build _ _, by decide⟩

/-- C3, amended. For a container with `n ≥ 1` children and the child at
position `i`: if child `(i + 1) mod n` is attached, `goToNextItem` focuses it
and does not raise; if child `(i + n - 1) mod n` is attached, `goToPreviousItem`
focuses it and does not raise.  In particular, with these attached, previous
of the first child focuses the last and next of the last focuses the first. -/
theorem goTo_wraps (c : Accordion) (i : Nat) (hi : i < c.accordionItems.length) :
    (c.isAttached ((i + 1) % c.accordionItems.length) = true →
        c.goToNextItem i =
          ({ c with focused := some ((i + 1) % c.accordionItems.length) }, none)) ∧
      (c.isAttached ((i + c.accordionItems.length - 1) % c.accordionItems.length) = true →
        c.goToPreviousItem i =
          ({ c with focused := some ((i + c.accordionItems.length - 1) % c.accordionItems.length) },
            none)) ∧
      (c.isAttached (c.accordionItems.length - 1) = true →
        c.goToPreviousItem 0 = ({ c with focused := some (c.accordionItems.length - 1) }, none)) ∧
      (c.isAttached 0 = true →
        c.goToNextItem (c.accordionItems.length - 1) = ({ c with focused := some 0 }, none)) := by
  have hfocus : ∀ (k : Int) (j : Nat), k = (j : Int) → j < c.accordionItems.length →
      c.isAttached j = true → c.focusAt k = ({ c with focused := some j }, none) := by
    intro k j hk hj ha
    subst hk
    simp [Accordion.focusAt, AccordionItem.focus, hj, ha]
  have hpos : 0 < c.accordionItems.length := by omega
  refine ⟨fun ha => ?_, fun ha => ?_, fun ha => ?_, fun ha => ?_⟩
  · simp only [Accordion.goToNextItem, Accordion.findIndex, hi, if_true]
    apply hfocus _ _ _ (Nat.mod_lt _ hpos) ha
    by_cases hl : i + 1 = c.accordionItems.length
    · have : (i : Int) = (c.accordionItems.length : Int) - 1 := by omega
      rw [if_pos this, hl, Nat.mod_self]; rfl
    · have : ¬ (i : Int) = (c.accordionItems.length : Int) - 1 := by omega
      rw [if_neg this, Nat.mod_eq_of_lt (by omega)]; push_cast; rfl
  · simp only [Accordion.goToPreviousItem, Accordion.findIndex, hi, if_true]
    apply hfocus _ _ _ (Nat.mod_lt _ hpos) ha
    by_cases h0 : i = 0
    · subst h0
      simp only [Nat.cast_zero, if_true, Nat.zero_add]
      rw [Nat.mod_eq_of_lt (by omega)]
      omega
    · have : ¬ (i : Int) = 0 := by omega
      rw [if_neg this]
      have e : i + c.accordionItems.length - 1 = (i - 1) + c.accordionItems.length := by omega
      rw [e, Nat.add_mod_right, Nat.mod_eq_of_lt (by omega)]
      omega
  · simp only [Accordion.goToPreviousItem, Accordion.findIndex, hpos, if_true, Nat.cast_zero]
    exact hfocus _ _ (by omega) (by omega) ha
  · have hl : c.accordionItems.length - 1 < c.accordionItems.length := by omega
    simp only [Accordion.goToNextItem, Accordion.findIndex, hl, if_true]
    have : ((c.accordionItems.length - 1 : Nat) : Int) = (c.accordionItems.length : Int) - 1 := by
      omega
    rw [if_pos this]
    exact hfocus _ _ rfl hpos ha

/-- Witness for C3 amended: the scenario `Examples.ab`, from child 1. -/
theorem goTo_wraps_witness :
    Examples.ab.goToNextItem 1 = ({ Examples.ab with focused := some 0 }, none) ∧
      Examples.ab.goToPreviousItem 1 = ({ Examples.ab with focused := some 0 }, none) :=
  have h := goTo_wraps Examples.ab 1 (by decide)
  ⟨h.1 (by decide), h.2.1 (by decide)⟩

/-! ## Claims C6, C7, C10: evaluations -/

/-- C6 fails on the code. The only child of `Examples.f` is declared with
`expanded="false"`, and the checks of the container's constructor accept it as
declared; its `connectedCallback` completes, and afterwards the getter
`expanded` returns `true`, the trigger carries `aria-expanded="true"` and the
region `aria-hidden="false"`: the setter is handed the attribute string, and a
non-empty string is truthy.  The same holds when the item is attached inside
the constructor of its container, by `customElements.define`. -/
theorem declared_false_attaches_expanded :
    Accordion.afterDefine [] [.item (Examples.declared "f" (some "false") [])] =
        .ok Examples.f ∧
      ((Examples.f.item? 0).bind (fun it => it.getAttribute "expanded")) = some "false" ∧
      (AccordionItem.connectedCallback [] Examples.f 0).2 = none ∧
      (AccordionItem.connectedCallback [] Examples.f 0).1.isExpanded 0 = true ∧
      (AccordionItem.connectedCallback [] Examples.f 0).1.buttonAttr 0 "aria-expanded" =
        some "true" ∧
      (AccordionItem.connectedCallback [] Examples.f 0).1.sectionAttr 0 "aria-hidden" =
        some "false" ∧
      (Accordion.constructor false [] []
        [.item (Examples.declared "f" (some "false") [])]).map
          (fun c => (c.isExpanded 0, c.buttonAttr 0 "aria-expanded",
            c.sectionAttr 0 "aria-hidden")) = .ok (true, some "true", some "false") := by
  decide

/-- C7 fails on the code. In the scenario `Examples.ab` (no allow-multiple, `a`
declared expanded, `b` not, both attached) a keydown event with code `Enter`
or `Space` on the trigger of `b` changes nothing: `b` stays collapsed, `a`
stays expanded and `activeItems` stays `[a]`. -/
theorem keydown_enter_changes_nothing :
    Reachable Examples.ab ∧ Examples.ab.allowMultiple = false ∧
      Examples.ab.isAttached 0 = true ∧ Examples.ab.isAttached 1 = true ∧
      Examples.ab.activeItems = [0] ∧
      AccordionItem.keydown Examples.ab 1 "Enter" = (Examples.ab, none) ∧
      AccordionItem.keydown Examples.ab 1 "Space" = (Examples.ab, none) :=
  ⟨Examples.reachable_build _ _, by decide⟩

/-- In every state the code produces, a keydown event with code `Enter` or
`Space` changes nothing: the constructor leaves `allowUserEvents` undefined
and no statement assigns it. -/
theorem keydown_enter_space_noop (c : Accordion) (i : Nat) (code : String) (hr : Reachable c)
    (hcode : code = "Enter" ∨ code = "Space") : AccordionItem.keydown c i code = (c, none) := by
  have hu := hr.invariant.1
  unfold AccordionItem.keydown
  split
  · rfl
  · split
    · rfl
    · rcases hcode with rfl | rfl <;> simp [hu]

/-- Had the container a truthy `allowUserEvents`, the keydown listener would do
what C7 says: with `a` the only expanded child and `b` attached with its
listeners, `Enter` or `Space` on the trigger of `b` expands `b` and collapses
`a`. -/
theorem keydown_enter_with_user_events (c : Accordion) (a b : Nat) (code : String)
    (hu : c.allowUserEvents = true) (hm : c.allowMultiple = false)
    (hcode : code = "Enter" ∨ code = "Space")
    (hall : ∀ k ∈ c.activeItems, c.isAttached k = true) (hab : a ≠ b)
    (hbA : c.isAttached b = true)
    (hbL : ((c.item? b).bind AccordionItem.dom).map ItemDom.keydownListener = some true)
    (hbE : c.isExpanded b = false) :
    (AccordionItem.keydown c b code).2 = none ∧
      (AccordionItem.keydown c b code).1.isExpanded a = false ∧
      (AccordionItem.keydown c b code).1.activeItems = [b] := by
  obtain ⟨h1, h2⟩ := AccordionItem.setExpanded_truthy_single c b (.bool true) rfl hm hbA
    (fun k hk => hall k ((Accordion.mem_activeItems c k).mpr hk))
  have hkey : AccordionItem.keydown c b code = AccordionItem.setExpanded c b (.bool true) := by
    unfold AccordionItem.keydown
    cases hd : (c.item? b).bind AccordionItem.dom with
    | none => simp [hd] at hbL
    | some d =>
      simp only [hd, Option.map_some', Option.some.injEq] at hbL
      have hc : (code == "Space" || code == "Enter") = true := by
        rcases hcode with rfl | rfl <;> decide
      simp only [hbL, Bool.not_true, Bool.false_eq_true, if_false, hu, hc, Bool.and_self, if_true,
        AccordionItem.toggle, hbE, Bool.not_false]
      split <;> rfl
  rw [hkey]
  refine ⟨h1, ?_, ?_⟩
  · rw [h2]; simpa using fun h : b = a => hab h.symm
  · apply Accordion.activeItems_eq_singleton
    intro j
    rw [h2]
    simp [eq_comm]

/-- C10 fails on the code. In `Examples.m` the child is attached and expanded
and its region holds `<div tabindex="0">`, which the selector list selects;
after `expanded = false` followed by `expanded = true` the child is expanded
again and the `tabindex` of that descendant is `-1`: once it carries `-1` the
last selector of the list no longer selects it. -/
theorem tabindex_not_restored :
    Reachable Examples.m ∧ Examples.m.isAttached 0 = true ∧ Examples.m.isExpanded 0 = true ∧
      Examples.m.descendants 0 = [⟨"div", [("tabindex", "0")]⟩] ∧
      AccordionItem._getFocusableElements.any
        (fun s => s.selects ⟨"div", [("tabindex", "0")]⟩) = true ∧
      (AccordionItem.setExpanded (AccordionItem.setExpanded Examples.m 0 (.bool false)).1 0
        (.bool true)).2 = none ∧
      (AccordionItem.setExpanded (AccordionItem.setExpanded Examples.m 0 (.bool false)).1 0
        (.bool true)).1.isExpanded 0 = true ∧
      (AccordionItem.setExpanded (AccordionItem.setExpanded Examples.m 0 (.bool false)).1 0
        (.bool true)).1.descendants 0 = [⟨"div", [("tabindex", "-1")]⟩] :=
  ⟨Examples.reachable_build _ _, by decide⟩

/-! ### What the setter does restore -/

namespace AccordionItem

open Accordion

/-- The descendants of the region cached by an item. -/
theorem descendants_eq (c : Accordion) (i : Nat) (it : AccordionItem) (d : ItemDom)
    (hit : c.item? i = some it) (hd : it.dom = some d) : c.descendants i = d.descendants := by
  simp [Accordion.descendants, hit, hd]

theorem descendants_modifyItem_of_ne (c : Accordion) (i j : Nat) (f : AccordionItem → AccordionItem)
    (h : i ≠ j) : (c.modifyItem i f).descendants j = c.descendants j := by
  simp [Accordion.descendants, item?_modifyItem, h]

theorem descendants_modifyItem_self (c : Accordion) (i : Nat) (f : AccordionItem → AccordionItem)
    (g : List Element → List Element)
    (hf : ∀ it, (f it).dom.map ItemDom.descendants = it.dom.map (fun d => g d.descendants))
    (hi : c.isAttached i = true) : (c.modifyItem i f).descendants i = g (c.descendants i) := by
  cases hit : c.item? i with
  | none => simp [isAttached, hit] at hi
  | some it =>
    cases hd : it.dom with
    | none => simp [isAttached, hit, hd] at hi
    | some d =>
      have h1 := hf it
      rw [hd] at h1
      simp only [Accordion.descendants, item?_modifyItem, hit, if_true, Option.map_some',
        Option.bind_some, hd, Option.getD_some]
      cases hfd : (f it).dom with
      | none => simp [hfd] at h1
      | some d1 =>
        simp only [hfd, Option.map_some', Option.some.injEq] at h1
        simp [hfd, hd, h1]

theorem descendants_reflectExpanded (it : AccordionItem) :
    (reflectExpanded it).dom.map ItemDom.descendants =
      it.dom.map (fun d => setAttributeOnSelected _getFocusableElements "tabindex" "0"
        d.descendants) := by
  cases hd : it.dom <;> simp [reflectExpanded, onDescendants, onSection, onButton, setAttribute, hd]

theorem descendants_reflectCollapsed (t : Bool) (it : AccordionItem) :
    (reflectCollapsed t it).dom.map ItemDom.descendants =
      it.dom.map (fun d => setAttributeOnSelected _getFocusableElements "tabindex" "-1"
        d.descendants) := by
  cases hd : it.dom <;> simp [reflectCollapsed, onDescendants, onSection, onButton, setAttribute, hd]

theorem descendants_onButton (f : Element → Element) (it : AccordionItem) :
    (onButton f it).dom.map ItemDom.descendants = it.dom.map (fun d => d.descendants) := by
  cases hd : it.dom <;> simp [onButton, hd]

theorem descendants_afterDisable (c : Accordion) (i k : Nat) :
    (afterDisable c i).descendants k = c.descendants k := by
  unfold afterDisable
  split
  · by_cases h : i = k
    · subst h
      by_cases hi : c.isAttached i = true
      · exact descendants_modifyItem_self c i _ (fun l => l) (descendants_onButton _) hi
      · cases hit : c.item? i with
        | none => simp [Accordion.descendants, item?_modifyItem, hit]
        | some it =>
          cases hd : it.dom with
          | none => simp [Accordion.descendants, item?_modifyItem, hit, hd, onButton]
          | some d => simp [isAttached, hit, hd] at hi
    · exact descendants_modifyItem_of_ne c i k _ h
  · rfl

/-- Collapse followed by expand on an attached child, in a container where the
expand branch meets only attached children: both assignments complete, and each
descendant of the region has gone through the collapse and then the expand
step of the selector list. -/
theorem descendants_collapse_expand (c : Accordion) (i : Nat) (hi : c.isAttached i = true)
    (hall : c.allowMultiple = false → ∀ k ∈ c.activeItems, c.isAttached k = true) :
    (setExpanded c i (.bool false)).2 = none ∧
      (setExpanded (setExpanded c i (.bool false)).1 i (.bool true)).2 = none ∧
      (setExpanded (setExpanded c i (.bool false)).1 i (.bool true)).1.descendants i =
        setAttributeOnSelected _getFocusableElements "tabindex" "0"
          (setAttributeOnSelected _getFocusableElements "tabindex" "-1" (c.descendants i)) := by
  have h1 : setExpanded c i (.bool false) =
      (c.modifyItem i (reflectCollapsed c.allowToggle), none) := by
    simp [setExpanded, JsValue.truthy, setExpandedFalse, hi]
  have hs1 : Shrinks c (c.modifyItem i (reflectCollapsed c.allowToggle)) :=
    shrinks_modifyItem c i _ (by simp) (by simp)
  have hd1 : (c.modifyItem i (reflectCollapsed c.allowToggle)).descendants i =
      setAttributeOnSelected _getFocusableElements "tabindex" "-1" (c.descendants i) :=
    descendants_modifyItem_self c i _ _ (descendants_reflectCollapsed _) hi
  have hE1 : (c.modifyItem i (reflectCollapsed c.allowToggle)).isExpanded i = false := by
    rw [isExpanded_modifyItem]
    cases hit : c.item? i <;> simp [hit]
  rw [h1]
  generalize c.modifyItem i (reflectCollapsed c.allowToggle) = c1 at hs1 hd1 hE1
  have hi1 : c1.isAttached i = true := by rw [hs1.attached]; exact hi
  refine ⟨rfl, ?_⟩
  simp only
  rw [setExpanded_truthy c1 i (.bool true) rfl hi1]
  have hs2 := shrinks_afterDisable c1 i
  have hi2 : (afterDisable c1 i).isAttached i = true := by rw [hs2.attached]; exact hi1
  by_cases hm : c.allowMultiple = true
  · have hm1 : c1.allowMultiple = true := hs1.shrinks_allowMultiple.trans hm
    simp only [hm1, Bool.not_true, Bool.false_eq_true, if_false, true_and]
    rw [descendants_modifyItem_self _ i _ _ descendants_reflectExpanded hi2,
      descendants_afterDisable, hd1]
  · have hm0 : c.allowMultiple = false := Bool.eq_false_iff.mpr hm
    have hm1 : c1.allowMultiple = false := hs1.shrinks_allowMultiple.trans hm0
    simp only [hm1, Bool.not_false, if_true]
    have hok : (collapseEach (afterDisable c1 i) (afterDisable c1 i).activeItems).2 = none := by
      apply collapseEach_ok
      intro k hk
      rw [mem_activeItems, isExpanded_afterDisable] at hk
      rw [hs2.attached k, hs1.attached k]
      exact hall hm0 k ((mem_activeItems c k).mpr (hs1.expanded k hk))
    have hnot : i ∉ (afterDisable c1 i).activeItems := by
      rw [mem_activeItems, isExpanded_afterDisable, hE1]; simp
    have hitem := item?_collapseEach_of_not_mem _ i hnot (afterDisable c1 i)
    have hs3 := shrinks_collapseEach (afterDisable c1 i).activeItems (afterDisable c1 i)
    cases hr : collapseEach (afterDisable c1 i) (afterDisable c1 i).activeItems with
    | mk c2 e =>
      rw [hr] at hok hitem hs3
      simp only at hok hitem
      subst hok
      have hi3 : c2.isAttached i = true := by rw [hs3.attached]; exact hi2
      refine ⟨rfl, ?_⟩
      simp only
      rw [descendants_modifyItem_self _ i _ _ descendants_reflectExpanded hi3]
      have : c2.descendants i = (afterDisable c1 i).descendants i := by
        simp only [Accordion.descendants, hitem]
      rw [this, descendants_afterDisable, hd1]

/-- The first seven selectors of the list do not look at `tabindex`. -/
theorem selects_setAttribute_tabindex (s : Selector) (hs : s ∈ _getFocusableElements.take 7)
    (e : Element) (v : String) : s.selects (e.setAttribute "tabindex" v) = s.selects e := by
  have hrole : (e.setAttribute "tabindex" v).getAttribute "role" = e.getAttribute "role" :=
    Element.getAttribute_setAttribute_of_ne e v (by decide)
  have hhref : (e.setAttribute "tabindex" v).hasAttribute "href" = e.hasAttribute "href" := by
    have := Element.getAttribute_setAttribute_of_ne e (m := "href") (n := "tabindex") v (by decide)
    simpa [Element.hasAttribute, Element.getAttribute] using congrArg Option.isSome this
  have hdis : (e.setAttribute "tabindex" v).hasAttribute "disabled" =
      e.hasAttribute "disabled" := by
    have := Element.getAttribute_setAttribute_of_ne e (m := "disabled") (n := "tabindex") v
      (by decide)
    simpa [Element.hasAttribute, Element.getAttribute] using congrArg Option.isSome this
  have htag : (e.setAttribute "tabindex" v).tag = e.tag := rfl
  simp only [_getFocusableElements, List.take, List.mem_cons, List.mem_singleton,
    List.not_mem_nil, or_false] at hs
  rcases hs with rfl | rfl | rfl | rfl | rfl | rfl | rfl <;>
    simp [Selector.selects, AttrTest.holds, hrole, hhref, hdis, htag]

/-- A descendant selected by one of the first seven selectors (an anchor, a
checkbox role, an `href`, a button, input, select or textarea that is not
disabled) carries `tabindex="0"` after the collapse step followed by the
expand step. -/
theorem tabindex_restored_of_other_selector (e : Element)
    (h : (_getFocusableElements.take 7).any (fun s => s.selects e) = true) :
    ((setAttributeOnSelected _getFocusableElements "tabindex" "0"
      (setAttributeOnSelected _getFocusableElements "tabindex" "-1" [e])).map
        (fun x => x.getAttribute "tabindex")) = [some "0"] := by
  obtain ⟨s, hs, hsel⟩ := List.any_eq_true.mp h
  have hmem : s ∈ _getFocusableElements := List.mem_of_mem_take hs
  have h1 : _getFocusableElements.any (fun s => s.selects e) = true :=
    List.any_eq_true.mpr ⟨s, hmem, hsel⟩
  have h2 : _getFocusableElements.any
      (fun s => s.selects (e.setAttribute "tabindex" "-1")) = true :=
    List.any_eq_true.mpr ⟨s, hmem, by rw [selects_setAttribute_tabindex s hs]; exact hsel⟩
  simp only [setAttributeOnSelected, List.map_cons, List.map_nil, h1, if_true, h2]
  rw [Element.getAttribute_setAttribute_self]

end AccordionItem

/-! ## Claim C4: the identifier check -/

namespace Regex

theorem nullable_iff (r : Regex) : nullable r = true ↔ [] ∈ lang r := by
  induction r with
  | empty => simp [nullable, lang, Language.not_mem_zero]
  | eps => simp [nullable, lang, Language.mem_one]
  | cls rs =>
    simp only [nullable, lang]
    constructor
    · intro h; cases h
    · rintro ⟨c, _, h⟩; cases h
  | seq r s ihr ihs =>
    simp only [nullable, lang, Bool.and_eq_true, ihr, ihs, Language.mem_mul]
    constructor
    · rintro ⟨h1, h2⟩; exact ⟨[], h1, [], h2, rfl⟩
    · rintro ⟨a, ha, b, hb, hab⟩
      obtain ⟨rfl, rfl⟩ := List.append_eq_nil.mp hab
      exact ⟨ha, hb⟩
  | alt r s ihr ihs =>
    simp only [nullable, lang, Bool.or_eq_true, ihr, ihs, Language.mem_add]
  | star r _ =>
    simp only [nullable, lang, true_iff]
    exact Language.nil_mem_kstar _

theorem cons_mem_mul_iff (L M : Language Char) (c : Char) (w : List Char) :
    c :: w ∈ L * M ↔
      (∃ a b, c :: a ∈ L ∧ b ∈ M ∧ w = a ++ b) ∨ ([] ∈ L ∧ c :: w ∈ M) := by
  rw [Language.mem_mul]
  constructor
  · rintro ⟨a, ha, b, hb, hab⟩
    cases a with
    | nil => right; simp at hab; subst hab; exact ⟨ha, hb⟩
    | cons x a =>
      simp at hab
      obtain ⟨rfl, rfl⟩ := hab
      left; exact ⟨a, b, ha, hb, rfl⟩
  · rintro (⟨a, b, ha, hb, rfl⟩ | ⟨h1, h2⟩)
    · exact ⟨c :: a, ha, b, hb, rfl⟩
    · exact ⟨[], h1, c :: w, h2, rfl⟩

theorem cons_mem_kstar_iff (L : Language Char) (c : Char) (w : List Char) :
    c :: w ∈ KStar.kstar L ↔ ∃ a b, c :: a ∈ L ∧ b ∈ KStar.kstar L ∧ w = a ++ b := by
  constructor
  · intro h
    obtain ⟨S, hS, hall⟩ := Language.mem_kstar_iff_exists_nonempty.mp h
    cases S with
    | nil => simp at hS
    | cons y S =>
      have hy := hall y (List.mem_cons_self _ _)
      cases y with
      | nil => exact absurd rfl hy.2
      | cons x y =>
        simp at hS
        obtain ⟨rfl, rfl⟩ := hS
        refine ⟨y, S.flatten, hy.1, ?_, rfl⟩
        exact Language.join_mem_kstar (fun z hz => (hall z (List.mem_cons_of_mem _ hz)).1)
  · rintro ⟨a, b, ha, hb, rfl⟩
    obtain ⟨S, rfl, hS⟩ := Language.mem_kstar.mp hb
    have : c :: (a ++ S.flatten) = ((c :: a) :: S).flatten := by simp
    rw [this]
    apply Language.join_mem_kstar
    intro y hy
    rcases List.mem_cons.mp hy with rfl | hy
    · exact ha
    · exact hS y hy

theorem deriv_iff (r : Regex) (c : Char) : ∀ w, w ∈ lang (deriv r c) ↔ c :: w ∈ lang r := by
  induction r with
  | empty => intro w; simp [deriv, lang, Language.not_mem_zero]
  | eps => intro w; simp [deriv, lang, Language.not_mem_zero, Language.mem_one]
  | cls rs =>
    intro w
    by_cases h : inClass rs c = true
    · simp only [deriv, h, if_true, lang, Language.mem_one]
      constructor
      · rintro rfl; exact ⟨c, h, rfl⟩
      · rintro ⟨d, _, hd⟩; simp at hd; exact hd.2
    · simp only [deriv, h, lang, Language.not_mem_zero, false_iff]
      rintro ⟨d, hd, hw⟩
      simp at hw
      obtain ⟨rfl, _⟩ := hw
      exact h hd
  | seq r s ihr ihs =>
    intro w
    rw [lang, cons_mem_mul_iff]
    by_cases h : nullable r = true
    · simp only [deriv, h, if_true, lang, Language.mem_add, Language.mem_mul, ihs]
      constructor
      · rintro (⟨a, ha, b, hb, rfl⟩ | h2)
        · left; exact ⟨a, b, (ihr a).mp ha, hb, rfl⟩
        · right; exact ⟨(nullable_iff r).mp h, h2⟩
      · rintro (⟨a, b, ha, hb, rfl⟩ | ⟨_, h2⟩)
        · left; exact ⟨a, (ihr a).mpr ha, b, hb, rfl⟩
        · right; exact h2
    · have hn : [] ∉ lang r := fun hh => h ((nullable_iff r).mpr hh)
      simp only [deriv, h, lang, Language.mem_mul]
      constructor
      · rintro ⟨a, ha, b, hb, rfl⟩
        left; exact ⟨a, b, (ihr a).mp ha, hb, rfl⟩
      · rintro (⟨a, b, ha, hb, rfl⟩ | ⟨h1, _⟩)
        · exact ⟨a, (ihr a).mpr ha, b, hb, rfl⟩
        · exact absurd h1 hn
  | alt r s ihr ihs =>
    intro w
    simp only [deriv, lang, Language.mem_add, ihr, ihs]
  | star r ih =>
    intro w
    rw [lang, cons_mem_kstar_iff]
    simp only [deriv, lang, Language.mem_mul]
    constructor
    · rintro ⟨a, ha, b, hb, rfl⟩
      exact ⟨a, b, (ih a).mp ha, hb, rfl⟩
    · rintro ⟨a, b, ha, hb, rfl⟩
      exact ⟨a, (ih a).mpr ha, b, hb, rfl⟩

theorem fullMatch_iff (w : List Char) : ∀ r : Regex, fullMatch r w = true ↔ w ∈ lang r := by
  induction w with
  | nil => intro r; simpa [fullMatch] using nullable_iff r
  | cons c w ih => intro r; rw [fullMatch, ih, deriv_iff]

end Regex

namespace AccordionItem

open Regex

theorem val_le_iff (c : Char) (k : UInt32) : c.val ≤ k ↔ c.toNat ≤ k.toNat := by
  rw [UInt32.le_def, BitVec.le_def]; rfl

theorem val_ge_iff (c : Char) (k : UInt32) : c.val ≥ k ↔ k.toNat ≤ c.toNat := by
  show k ≤ c.val ↔ _
  rw [UInt32.le_def, BitVec.le_def]; rfl

theorem inClass_alnum (c : Char) :
    inClass [('A', 'Z'), ('a', 'z'), ('0', '9')] c = c.isAlphanum := by
  simp only [inClass, List.any_cons, List.any_nil, Bool.or_false, Char.isAlphanum, Char.isAlpha,
    Char.isUpper, Char.isLower, Char.isDigit, val_le_iff, val_ge_iff]
  have hA : 'A'.toNat = (65 : UInt32).toNat := rfl
  have hZ : 'Z'.toNat = (90 : UInt32).toNat := rfl
  have ha : 'a'.toNat = (97 : UInt32).toNat := rfl
  have hz : 'z'.toNat = (122 : UInt32).toNat := rfl
  have h0 : '0'.toNat = (48 : UInt32).toNat := rfl
  have h9 : '9'.toNat = (57 : UInt32).toNat := rfl
  rw [hA, hZ, ha, hz, h0, h9, Bool.or_assoc]

theorem inClass_hyphen (c : Char) : inClass [('-', '-')] c = decide (c = '-') := by
  have h : (c = '-') ↔ c.toNat = '-'.toNat := by
    constructor
    · rintro rfl; rfl
    · intro h
      apply Char.ext
      apply UInt32.toNat.inj
      exact h
  simp only [inClass, List.any_cons, List.any_nil, Bool.or_false]
  rw [← Bool.decide_and]
  apply decide_eq_decide.mpr
  rw [h]
  omega

theorem lang_deriv_idRegex (c : Char) :
    lang (Regex.deriv idRegex c) = if c.isAlphanum then lang idRegexInRun else 0 := by
  simp only [idRegex, idRegexInRun, Regex.plus, alnumClass, hyphen, Regex.deriv, Regex.nullable, inClass_alnum,
    Bool.false_and, Bool.false_eq_true, if_false]
  by_cases h : c.isAlphanum = true
  · simp [h, lang, Regex.deriv]
  · simp [h, lang, Regex.deriv]

theorem lang_deriv_idRegexInRun (c : Char) :
    lang (Regex.deriv idRegexInRun c) =
      if c.isAlphanum then lang idRegexInRun else if c = '-' then lang idRegex else 0 := by
  simp only [idRegex, idRegexInRun, Regex.plus, alnumClass, hyphen, Regex.deriv, Regex.nullable, inClass_alnum,
    inClass_hyphen, Bool.false_and, Bool.false_eq_true, if_false, if_true]
  by_cases h : c.isAlphanum = true
  · have hc : c ≠ '-' := by rintro rfl; exact absurd h (by decide)
    simp [h, hc, lang, Regex.deriv]
  · by_cases hc : c = '-'
    · simp [h, hc, lang, Regex.deriv]
    · simp [h, hc, lang, Regex.deriv]

theorem scan_iff_lang (w : List Char) :
    (scan false w = true ↔ w ∈ lang idRegex) ∧ (scan true w = true ↔ w ∈ lang idRegexInRun) := by
  induction w with
  | nil =>
    constructor
    · rw [← nullable_iff]; decide
    · rw [← nullable_iff]; decide
  | cons c w ih =>
    rw [← deriv_iff, ← deriv_iff, lang_deriv_idRegex, lang_deriv_idRegexInRun]
    by_cases h : c.isAlphanum = true
    · simp [scan, h, ih.2]
    · by_cases hc : c = '-'
      · simp [scan, h, hc, ih.1, Language.not_mem_zero]
      · simp [scan, h, hc, Language.not_mem_zero]

theorem scan_iff_runs (w : List Char) :
    (scan false w = (w.splitOn '-').all goodRun) ∧
    (scan true w = match w.splitOn '-' with
      | [] => false
      | run :: runs => run.all Char.isAlphanum && runs.all goodRun) := by
  induction w with
  | nil => simp [scan, List.splitOn, List.splitOnP_nil, goodRun]
  | cons c w ih =>
    obtain ⟨ih1, ih2⟩ := ih
    simp only [List.splitOn] at ih1 ih2 ⊢
    rw [List.splitOnP_cons]
    have hne := List.splitOnP_ne_nil (fun x => x == '-') w
    cases hsp : List.splitOnP (fun x => x == '-') w with
    | nil => exact absurd hsp hne
    | cons run runs =>
      rw [hsp] at ih1 ih2
      simp only at ih2
      by_cases h : c.isAlphanum = true
      · have hc : c ≠ '-' := by rintro rfl; exact absurd h (by decide)
        simp [scan, h, hc, ih2, goodRun]
      · by_cases hc : c = '-'
        · subst hc
          simp [scan, ih1, goodRun]
        · simp [scan, h, hc, goodRun]

theorem fullMatch_idRegex_eq_isSlug (id : String) :
    Regex.fullMatch idRegex id.toList = isSlug id := by
  have h1 := (scan_iff_lang id.toList).1
  have h2 := (scan_iff_runs id.toList).1
  rw [← Regex.fullMatch_iff] at h1
  rw [Bool.eq_iff_iff, ← h1, h2]
  rfl

end AccordionItem

/-- A character that is neither a letter, a digit nor a hyphen stops the scan. -/
theorem AccordionItem.scan_of_mem_bad (c : Char) (hc : c.isAlphanum = false) (hh : c ≠ '-')
    (w : List Char) (hw : c ∈ w) : ∀ b, AccordionItem.scan b w = false := by
  induction w with
  | nil => cases hw
  | cons x w ih =>
    intro b
    rcases List.mem_cons.mp hw with rfl | hx
    · simp [AccordionItem.scan, hc, hh]
    · unfold AccordionItem.scan
      split
      · exact ih hx true
      · split
        · exact ih hx false
        · rfl

/-- C4. For every identifier string, `_checkIdIsCorrect` raises (the
configuration error for an incorrect identifier) if and only if the identifier
is not a slug, that is not one or more non-empty runs of ASCII letters and
digits separated by single hyphens; every identifier containing an underscore
or a space is rejected, and `panel-1` is accepted. -/
theorem checkIdIsCorrect_raises_iff_not_slug :
    (∀ id : String, AccordionItem._checkIdIsCorrect id = .error (.error (.incorrectId id)) ↔
        AccordionItem.isSlug id = false) ∧
      (∀ id : String, AccordionItem._checkIdIsCorrect id = .ok () ↔
        AccordionItem.isSlug id = true) ∧
      (∀ id : String, ('_' ∈ id.toList ∨ ' ' ∈ id.toList) →
        AccordionItem._checkIdIsCorrect id = .error (.error (.incorrectId id))) ∧
      AccordionItem._checkIdIsCorrect "panel-1" = .ok () := by
  have key : ∀ id : String,
      AccordionItem._checkIdIsCorrect id =
        if AccordionItem.isSlug id then .ok () else .error (.error (.incorrectId id)) := by
    intro id
    simp only [AccordionItem._checkIdIsCorrect, AccordionItem.fullMatch_idRegex_eq_isSlug]
  refine ⟨fun id => ?_, fun id => ?_, fun id h => ?_, by decide⟩
  · rw [key]; cases AccordionItem.isSlug id <;> simp
  · rw [key]; cases AccordionItem.isSlug id <;> simp
  · rw [key]
    have hs : AccordionItem.isSlug id = false := by
      rw [← AccordionItem.fullMatch_idRegex_eq_isSlug, Bool.eq_false_iff]
      intro hm
      rw [Regex.fullMatch_iff, ← (AccordionItem.scan_iff_lang id.toList).1] at hm
      rcases h with h | h
      · rw [AccordionItem.scan_of_mem_bad '_' (by decide) (by decide) _ h] at hm; cases hm
      · rw [AccordionItem.scan_of_mem_bad ' ' (by decide) (by decide) _ h] at hm; cases hm
    simp [hs]

/-! ## Claim C5: the constructor -/

theorem length_filter_range_eq_countP {α : Type} (p : α → Bool) (l : List α) :
    ((List.range l.length).filter (fun i => l[i]?.map p == some true)).length = l.countP p := by
  induction l using List.reverseRecOn with
  | nil => simp
  | append_singleton l a ih =>
    rw [List.length_append, List.length_singleton, List.range_succ, List.filter_append,
      List.length_append, List.countP_append]
    congr 1
    · rw [← ih]
      congr 1
      apply List.filter_congr
      intro i hi
      rw [List.mem_range] at hi
      rw [List.getElem?_append_left hi]
    · cases hp : p a <;> simp [List.filter, hp]

theorem Accordion.length_activeItems (c : Accordion) :
    c.activeItems.length = c.accordionItems.countP AccordionItem.expanded :=
  length_filter_range_eq_countP AccordionItem.expanded c.accordionItems

/-- The statements of the constructor after `define`, on the children as
`define` left them, raise a configuration error if and only if some child is
not an `AccordionItem`, or the allow-multiple attribute is absent and more
than one child has its `expanded` attribute equal to `true` at that time;
they raise nothing else; with allow-multiple present and items as children
any number of expanded items is accepted. -/
theorem afterDefine_raises_iff (attrs : List (String × String)) (children : List Node) :
    ((∃ e, Accordion.afterDefine attrs children = .error (.error e)) ↔
        (children.any (fun n => !n.isItem) = true ∨
          ((attrs.lookup "allow-multiple").isSome = false ∧
            1 < (Node.items children).countP AccordionItem.expanded))) ∧
      (∀ e, Accordion.afterDefine attrs children = .error e → ∃ ce, e = .error ce) ∧
      ((attrs.lookup "allow-multiple").isSome = true → children.all Node.isItem = true →
        ∃ c, Accordion.afterDefine attrs children = .ok c) := by
  have hany : children.any (fun n => !n.isItem) = !children.all Node.isItem := by
    induction children with
    | nil => rfl
    | cons n ns ih => simp [List.any_cons, List.all_cons, ih]
  have hlen : ∀ c : Accordion, c.accordionItems = Node.items children →
      c.activeItems.length = (Node.items children).countP AccordionItem.expanded := by
    intro c hc
    rw [Accordion.length_activeItems, hc]
  simp only [Accordion.afterDefine, Accordion._checkDOMIsCorrect,
    Accordion.allowMultiple, Accordion.hasAttribute, hany]
  by_cases hall : children.all Node.isItem = true
  · simp only [hall, if_true, Bool.not_true, Bool.false_eq_true, false_or]
    rw [hlen _ rfl]
    by_cases hm : (attrs.lookup "allow-multiple").isSome = true
    · simp [hm]
    · have hm2 : (attrs.lookup "allow-multiple").isSome = false := Bool.eq_false_iff.mpr hm
      by_cases hc : 1 < (Node.items children).countP AccordionItem.expanded
      · simp [hm2, hc]
      · simp [hm2, hc]
  · simp [hall]

/-- With its guard set to a defined `$accordionItems`, the setter is `setExpanded`. -/
theorem AccordionItem.setExpandedIn_true (c : Accordion) (i : Nat) (v : JsValue) :
    AccordionItem.setExpandedIn true c i v = AccordionItem.setExpanded c i v := by
  simp [AccordionItem.setExpandedIn, AccordionItem.setExpanded, Accordion.activeItemsIn]

/-- With its guard set to a defined `$accordionItems`, attachment is `connectedCallback`. -/
theorem AccordionItem.connectedCallbackIn_true (document : List Element) (c : Accordion)
    (i : Nat) :
    AccordionItem.connectedCallbackIn true document c i =
      AccordionItem.connectedCallback document c i := by
  have h : ∀ c i, AccordionItem._accessibleTriggerIn true c i =
      AccordionItem._accessibleTrigger c i := by
    intro c i
    simp only [AccordionItem._accessibleTriggerIn, AccordionItem._accessibleTrigger,
      AccordionItem.setExpandedIn_true]
  simp only [AccordionItem.connectedCallbackIn, AccordionItem.connectedCallback, h]

/-- What the constructor returns is a state the code produces. -/
theorem constructor_reachable (itemNameDefined : Bool) (document : List Element)
    (attrs : List (String × String)) (children : List Node) (c : Accordion)
    (h : Accordion.constructor itemNameDefined document attrs children = .ok c) :
    Reachable c := by
  unfold Accordion.constructor at h
  split at h
  · cases h
  · exact Reachable.constructed attrs _ c h

/-- The constructor, run on the markup of `Examples.xb`, returns that state. -/
theorem constructor_xb :
    Accordion.constructor false [] []
        [.item (Examples.declared "bad id" (some "true") []),
          .item (Examples.declared "b" none [])] = .ok Examples.xb := by
  decide

/-- The constructor, run on the markup of `Examples.m`, returns that state. -/
theorem constructor_m :
    Accordion.constructor false [] [("allow-multiple", "")]
        [.item (Examples.declared "p" (some "true") [⟨"div", [("tabindex", "0")]⟩])] =
      .ok Examples.m := by
  decide

/-- C5 fails on the code. For the first container of a document, without
allow-multiple, with static children `a` declared `expanded="true"` and `b`
declared `expanded="false"`, only one child is declared expanded, yet the
constructor raises the configuration error for more than one expanded item:
`customElements.define` attaches the children first, and attachment expands
`b` (the defect of C6).  With `b` declared without the attribute the
constructor returns and `activeItems` is `[a]`.  And once the item name is
defined, that is for every container after the first, the constructor raises
`NotSupportedError` whatever the children are. -/
theorem constructor_raises_on_true_and_false :
    Accordion.constructor false [] []
        [.item (Examples.declared "a" (some "true") []),
          .item (Examples.declared "b" (some "false") [])] =
        .error (.error .moreThanOneExpanded) ∧
      (Accordion.constructor false [] []
        [.item (Examples.declared "a" (some "true") []),
          .item (Examples.declared "b" none [])]).map Accordion.activeItems = .ok [0] ∧
      Accordion.constructor true [] [] [] = .error (.domException "NotSupportedError") ∧
      Accordion.constructor true [] [("allow-multiple", "")]
        [.item (Examples.declared "a" (some "true") []),
          .item (Examples.declared "b" (some "true") [])] =
        .error (.domException "NotSupportedError") := by
  decide

end CustomElements
